import Mathlib

/-!
# tstat: a verification development of `tstat.c`

A shallow embedding of the probes of `tstat.c` (a one-line status generator
for OpenBSD) and of the line assembler `d_run`.

Conventions of the embedding.

* A C string is the list of its bytes before the terminating NUL (`CStr`).
  Source literals are UTF-8, `lit` gives their bytes.
* The operating system is an explicit argument: every `sysctl`, `ioctl`,
  `socket`, `getifaddrs` answer a probe reads is a field of an environment
  value, so a probe is a function of the answers it gets.
* `static` variables of a probe are an explicit state value passed in and
  returned.
* A probe result of type `Option` is `none` exactly where the C code has no
  defined behaviour (an array read out of bounds, a conversion of a NaN or of
  an out of range `double` to `int`, signed overflow). In the two loops of
  `d_temp`, `none` is the early `return d_warn("sysctl failed")`.
* `warn(3)` output on standard error is not part of the embedding.
-/

namespace Tstat

/-! ## C strings -/

/-- A C string: its bytes (each below 256) before the terminating NUL. -/
abbrev CStr := List Nat

/-- The UTF-8 encoding of one character of a source literal. -/
def utf8 (c : Char) : List Nat :=
  let n := c.toNat
  if n < 128 then [n]
  else if n < 2048 then [192 + n / 64, 128 + n % 64]
  else if n < 65536 then [224 + n / 4096, 128 + n / 64 % 64, 128 + n % 64]
  else [240 + n / 262144, 128 + n / 4096 % 64, 128 + n / 64 % 64, 128 + n % 64]

/-- The bytes of a string literal of the source file. -/
def lit (s : String) : CStr := s.toList.flatMap utf8

/-- The size `#define D_BUF 64` of the probe buffers. -/
def D_BUF : Nat := 64

/-! ## `d_fmt` -/

/-- The call `vsnprintf(s, sz, fmt, va)` where `text` is the full expansion of the format:
the buffer receives at most `sz - 1` bytes of it, the return value is the length
of the full expansion (negative when that length does not fit an `int`). -/
def vsnprintf (sz : Nat) (text : CStr) : CStr × Int :=
  (text.take (sz - 1), if text.length < 2 ^ 31 then (text.length : Int) else -1)

/-- The function `d_fmt(s, sz, fmt, ...)`: the string the returned pointer designates, which
is the buffer `s` unless `r < 0 || (size_t)r >= sz`. -/
def d_fmt (sz : Nat) (text : CStr) : CStr :=
  let r := (vsnprintf sz text).2
  if r < 0 ∨ (sz : Int) ≤ r then lit "vsnprintf failed" else (vsnprintf sz text).1

/-! ## `d_dots` -/

/-- The table `s[]` of `d_dots`. -/
def dots : List CStr := [lit "  ", lit " .", lit "..", lit ".:", lit "::"]

/-- The index `(4 * q) / 100` that `d_dots` reads the table at (`q` is an
`unsigned char`, the arithmetic is done in `int`). -/
def d_dots_index (q : Nat) : Nat := (4 * q) / 100

/-- The function `d_dots(q)`: `s[(4 * q) / 100]`; `none` when the read is outside the table. -/
def d_dots (q : Nat) : Option CStr := dots[d_dots_index q]?

/-! ## `d_wifi` -/

/-- The `errno` values the probes tell apart. -/
inductive Errno where
  | enoent
  | enxio
  | enotty
  | other
deriving DecidableEq, Repr

/-- What the system answers to the calls of `d_wifi`. -/
structure WifiEnv where
  /-- Whether `socket(AF_INET, SOCK_DGRAM, 0) != -1` -/
  socket_ok : Bool
  /-- The call `ioctl(fd, SIOCG80211BSSID, &bssid)`: `none` on success, `some e` when it
  returns `-1` with `errno = e` -/
  bssid : Option Errno
  /-- Whether `ioctl(fd, SIOCG80211NODE, &nr) != -1` -/
  node_ok : Bool
  /-- The field `nr.nr_rssi` (an `int8_t`) after the node query -/
  nr_rssi : Int
  /-- The field `nr.nr_max_rssi` (a `u_int8_t`) after the node query -/
  nr_max_rssi : Nat

/-- The quality `q` of `d_wifi` (lines 81-85). `RSSI nr_rssi nr_max_rssi` is the
value of the macro `IEEE80211_NODEREQ_RSSI(&nr)` of `<net80211/ieee80211_ioctl.h>`. -/
def d_wifi_q (RSSI : Int → Nat → Int) (nr_rssi : Int) (nr_max_rssi : Nat) : Int :=
  if nr_max_rssi ≠ 0 then RSSI nr_rssi nr_max_rssi
  else if nr_rssi ≥ -50 then 100
  else if nr_rssi ≤ -100 then 0
  else 2 * (nr_rssi + 100)

/-- The conversion of the `int` argument `q` to the `unsigned char` parameter of `d_dots`. -/
def to_uchar (q : Int) : Nat := (q % 256).toNat

/-- The probe `d_wifi(ifn)`: the string it returns. -/
def d_wifi (RSSI : Int → Nat → Int) (env : WifiEnv) : Option CStr :=
  if env.socket_ok = false then some (lit "socket failed")
  else match env.bssid with
    | some e => some (if e = Errno.enotty then lit "" else lit "ioctl failed")
    | none =>
      if env.node_ok = false ∧ env.nr_rssi ≠ 0 then some (lit "ioctl failed")
      else
        (d_dots (to_uchar (d_wifi_q RSSI env.nr_rssi env.nr_max_rssi))).map
          (fun g => d_fmt D_BUF (lit "[" ++ g ++ lit "]"))

/-! ## `d_net` -/

/-- One entry of the list `getifaddrs` returns: its name and, when `ifa_data` is
not null, the counters `ifi_ibytes` and `ifi_obytes` (both `uint64_t`). -/
structure IfAddr where
  ifa_name : CStr
  ifa_data : Option (Nat × Nat)

/-- The `static uint64_t in, out` of `d_net` (`in` is spelled `in_`). -/
structure NetState where
  in_ : Nat
  out : Nat
deriving DecidableEq, Repr

/-- The loop of `d_net` over the list of `getifaddrs` (lines 99-102), from
`ib = 0, ob = 0, f = 0`: the sums modulo `2^64` over the entries named `ifn` that
have data, and whether there was one. -/
def d_net_sum (ifn : CStr) : List IfAddr → Nat × Nat × Bool → Nat × Nat × Bool
  | [], acc => acc
  | ifa :: rest, (ib, ob, f) =>
    match ifa.ifa_data with
    | some (i, o) =>
      if ifa.ifa_name = ifn then d_net_sum ifn rest ((ib + i) % 2 ^ 64, (ob + o) % 2 ^ 64, true)
      else d_net_sum ifn rest (ib, ob, f)
    | none => d_net_sum ifn rest (ib, ob, f)

/-- The conversion of a `uint64_t` to the `long long` parameter of `fmt_scaled`. -/
def to_llong (x : Nat) : Int := if x % 2 ^ 64 < 2 ^ 63 then (x % 2 ^ 64 : Nat) else (x % 2 ^ 64 : Nat) - 2 ^ 64

/-- The argument `in ? ib - in : 0` (resp. `out ? ob - out : 0`) that `d_net`
passes to `fmt_scaled`: `prev` is the stored total, `cur` the current one. -/
def d_net_delta (prev cur : Nat) : Int :=
  to_llong (if prev ≠ 0 then (cur + 2 ^ 64 - prev) % 2 ^ 64 else 0)

/-- The probe `d_net(ifn)`: the string returned and the new value of `in, out`.
`fmt_scaled` is the function of `<util.h>` (`none` when it returns `-1`),
`getifaddrs` is `none` when that call returns `-1`. -/
def d_net (fmt_scaled : Int → Option CStr) (RSSI : Int → Nat → Int)
    (getifaddrs : Option (List IfAddr)) (wifi : WifiEnv) (ifn : CStr) (st : NetState) :
    Option CStr × NetState :=
  match getifaddrs with
  | none => (some (lit "getifaddrs failed"), st)
  | some ifas =>
    match d_net_sum ifn ifas (0, 0, false) with
    | (_, _, false) => (some (lit "interface failed"), st)
    | (ib, ob, true) =>
      match fmt_scaled (d_net_delta st.in_ ib), fmt_scaled (d_net_delta st.out ob) with
      | some is, some os =>
        ((d_wifi RSSI wifi).map (fun w =>
            if w.length ≠ 0 then
              d_fmt D_BUF (lit "↑ " ++ os ++ lit "/s ↓ " ++ is ++ lit "/s " ++ w)
            else
              d_fmt D_BUF (lit "↑ " ++ os ++ lit "/s ↓ " ++ is ++ lit "/s")),
          ⟨ib, ob⟩)
      | _, _ => (some (lit "fmt_scaled failed"), st)

/-! ## Binary64 arithmetic

`double` is IEEE 754 binary64 evaluated in round-to-nearest, ties-to-even. The
operands of this program are conversions of 64-bit integers and quotients and
products of a few of them, so the binary64 exponent range is never left and a
value is kept as `m * 2 ^ e` with unbounded `e`. -/

/-- The quotient `n / d` rounded to the nearest integer, ties to even. -/
def rne (n d : Nat) : Nat :=
  let q := n / d
  let r := n % d
  if 2 * r < d then q else if d < 2 * r then q + 1 else if q % 2 = 0 then q else q + 1

/-- With enough fuel, the number of binary digits of `n`. -/
def bits : Nat → Nat → Nat
  | 0, _ => 0
  | f + 1, n => if n = 0 then 0 else bits f (n / 2) + 1

/-- The number of binary digits of `n`. -/
def bitlen (n : Nat) : Nat := bits n n

/-- For `n, d > 0`: the pair `(m, e)` such that `m * 2 ^ e` is the binary64
nearest to `n / d` (53 significant bits, ties to even). -/
def roundPos (n d : Nat) : Nat × Int :=
  let e : Int := (bitlen n : Int) - (bitlen d : Int) - 52
  let n' := n * 2 ^ (-e).toNat
  let d' := d * 2 ^ e.toNat
  if n' < 2 ^ 52 * d' then (rne (2 * n') d', e - 1) else (rne n' d', e)

/-- A finite `double`: the value `m * 2 ^ e`. -/
structure Dbl where
  m : Int
  e : Int
deriving DecidableEq, Repr

/-- The `double` nearest to `(n / d) * 2 ^ e`. -/
def dround (n : Int) (d : Nat) (e : Int) : Dbl :=
  if n = 0 then ⟨0, 0⟩
  else ⟨n.sign * ((roundPos n.natAbs d).1 : Int), (roundPos n.natAbs d).2 + e⟩

/-- The conversion of an integer to `double`. -/
def ofInt (x : Int) : Dbl := dround x 1 0

/-- The quotient `a / b` of two `double`s, `b` not zero. -/
def ddiv (a b : Dbl) : Dbl := dround (a.m * b.m.sign) b.m.natAbs (a.e - b.e)

/-- The product `a * b` of two `double`s. -/
def dmul (a b : Dbl) : Dbl := dround (a.m * b.m) 1 (a.e + b.e)

/-- The conversion of a `double` to an integer type: truncation toward zero. -/
def dtrunc (a : Dbl) : Int :=
  if 0 ≤ a.e then a.m * 2 ^ a.e.toNat else Int.tdiv a.m (2 ^ (-a.e).toNat)

/-- The rational number `m * 2 ^ e` a `double` stands for. -/
def Dbl.val (a : Dbl) : ℚ := (a.m : ℚ) * (2 : ℚ) ^ a.e

/-! ## `printf` conversions -/

/-- With enough fuel, the decimal digits of `n`. -/
def dec_digits : Nat → Nat → CStr
  | 0, _ => []
  | f + 1, n => if n < 10 then [48 + n] else dec_digits f (n / 10) ++ [48 + n % 10]

/-- The decimal digits of `n`. -/
def utoa (n : Nat) : CStr := dec_digits (n + 1) n

/-- The conversion `%d`. -/
def fmt_d (x : Int) : CStr := if x < 0 then 45 :: utoa x.natAbs else utoa x.natAbs

/-- The number of tenths `%.1f` prints for `a`: `|a| * 10` rounded to the nearest
integer, ties to even. -/
def tenths (a : Dbl) : Nat :=
  if 0 ≤ a.e then a.m.natAbs * 2 ^ a.e.toNat * 10 else rne (a.m.natAbs * 10) (2 ^ (-a.e).toNat)

/-- The conversion `%.1f`. -/
def fmt_f1 (a : Dbl) : CStr :=
  (if a.m < 0 then [45] else []) ++ utoa (tenths a / 10) ++ [46, 48 + tenths a % 10]

/-- The number the text `fmt_f1 a` denotes: the sign and the tenths printed. -/
def fmt_f1_value (a : Dbl) : ℚ := (if a.m < 0 then -1 else 1) * ((tenths a : ℚ) / 10)

/-! ## `d_cpu` -/

/-- One reading of `kern.cp_time`, a `long[CPUSTATES]`: the entries at `CP_USER`,
`CP_NICE`, `CP_SYS`, `CP_IDLE`, and the remaining states. -/
structure CpTime where
  user : Int
  nice : Int
  sys : Int
  idle : Int
  others : List Int
deriving DecidableEq, Repr

/-- The sum `a + x₁ + x₂ + ...` of `long`s evaluated left to right; `none` on
signed overflow. -/
def long_sum_from (a : Int) : List Int → Option Int
  | [] => some a
  | x :: xs => if -(2 ^ 63) ≤ a + x ∧ a + x < 2 ^ 63 then long_sum_from (a + x) xs else none

/-- A sum of `long`s evaluated left to right; `none` on signed overflow. -/
def long_sum (xs : List Int) : Option Int := long_sum_from 0 xs

/-- The value `b / (double)t * 100` converted to `int` (lines 136-139 for a
numerator `b` and a denominator `t`); `none` when the quotient is not finite
or the product is outside the range of `int`. -/
def busy_pct (b t : Int) : Option Int :=
  if t = 0 then none
  else
    let p := dtrunc (dmul (ddiv (ofInt b) (ofInt t)) (ofInt 100))
    if -(2 ^ 31) ≤ p ∧ p < 2 ^ 31 then some p else none

/-- The value `p` of `d_cpu` for the stored reading `cpu` and the current one `c`. -/
def d_cpu_p (cpu c : CpTime) : Option Int :=
  match long_sum [c.user, -cpu.user, c.sys, -cpu.sys, c.nice, -cpu.nice],
        long_sum [c.user, -cpu.user, c.sys, -cpu.sys, c.nice, -cpu.nice, c.idle, -cpu.idle] with
  | some b, some t => busy_pct b t
  | _, _ => none

/-- The probe `d_cpu()`: the string returned and the new value of the `static long cpu[]`.
`sysctl` is the reading of `kern.cp_time` (`none` when the call returns `-1`),
`perf` the string `d_perf()` returns. -/
def d_cpu (sysctl : Option CpTime) (perf : CStr) (cpu : CpTime) : Option CStr × CpTime :=
  match sysctl with
  | none => (some (lit "sysctl failed"), cpu)
  | some c =>
    ((d_cpu_p cpu c).map (fun p => d_fmt D_BUF (lit "CPU " ++ fmt_d p ++ lit "% " ++ perf)), c)

/-! ## `d_temp` -/

/-- The answer to one query `sysctl(mib, 5, &sn, &sn_sz, NULL, 0)`. -/
inductive SensorAnswer where
  /-- success: `sn_sz` after the call, whether `sn.flags & SENSOR_FINVALID` is
  set, and `sn.value` (an `int64_t`) -/
  | ok (sn_sz : Nat) (finvalid : Bool) (value : Int)
  /-- The call returns `-1` with `errno == ENXIO` -/
  | enxio
  /-- The call returns `-1` with `errno == ENOENT` -/
  | enoent
  /-- The call returns `-1` with another `errno` -/
  | error
deriving DecidableEq, Repr

/-- The answer to one query `sysctl(mib, 3, &sd, &sd_sz, NULL, 0)`. -/
inductive DevAnswer where
  /-- success: `sd.maxnumt[SENSOR_TEMP]` and the answers to the sensor queries of
  this device by index `mib[4]` -/
  | ok (maxnumt : Int) (sensors : Nat → SensorAnswer)
  /-- The call returns `-1` with `errno == ENXIO` -/
  | enxio
  /-- The call returns `-1` with `errno == ENOENT` -/
  | enoent
  /-- The call returns `-1` with another `errno` -/
  | error

/-- The inner loop of `d_temp` (lines 176-186) from index `j` with `k` indices
left below `maxnumt`: the new `t`, or `none` on `return d_warn("sysctl failed")`. -/
def d_temp_sensors (sn : Nat → SensorAnswer) : Nat → Nat → Int → Option Int
  | 0, _, t => some t
  | k + 1, j, t =>
    match sn j with
    | .enxio => d_temp_sensors sn k (j + 1) t
    | .enoent => some t
    | .error => none
    | .ok sn_sz finvalid value =>
      d_temp_sensors sn k (j + 1)
        (if sn_sz ≠ 0 ∧ finvalid = false then (if value > t then value else t) else t)

/-- The outer loop of `d_temp` (lines 168-187). The list holds the answers to the
device queries for `mib[2] = 0, 1, ...`; past its end the kernel answers
`ENOENT`. The result is the final `t`, or `none` on `return d_warn("sysctl failed")`. -/
def d_temp_devs : List DevAnswer → Int → Option Int
  | [], t => some t
  | .enxio :: rest, t => d_temp_devs rest t
  | .enoent :: _, t => some t
  | .error :: _, _ => none
  | .ok maxnumt sensors :: rest, t =>
    match d_temp_sensors sensors maxnumt.toNat 0 t with
    | none => none
    | some t' => d_temp_devs rest t'

/-- The `double` `(t - 273150000) / 1000000.0` of `d_temp`. -/
def d_temp_celsius (t : Int) : Dbl := ddiv (ofInt (t - 273150000)) (ofInt 1000000)

/-- The text `"T %.1f°C"` for `(t - 273150000) / 1000000.0`. -/
def d_temp_text (t : Int) : CStr := lit "T " ++ fmt_f1 (d_temp_celsius t) ++ lit "°C"

/-- The probe `d_temp()`: the string it returns. -/
def d_temp (devs : List DevAnswer) : CStr :=
  match d_temp_devs devs (-1) with
  | none => lit "sysctl failed"
  | some t => if t = -1 then lit "temperature failed" else d_fmt D_BUF (d_temp_text t)

/-! ### The enumeration of `d_temp`, as the specification words it -/

/-- The valid readings among the sensors `j, j + 1, ...` (`k` indices left) of one
device: a sensor answering "temporarily absent" is skipped, the first "no such
device" ends the device, a reading of size zero or flagged invalid is discarded. -/
def sensor_readings (sn : Nat → SensorAnswer) : Nat → Nat → List Int
  | 0, _ => []
  | k + 1, j =>
    match sn j with
    | .enoent => []
    | .ok sn_sz finvalid value =>
      (if sn_sz ≠ 0 ∧ finvalid = false then [value] else []) ++ sensor_readings sn k (j + 1)
    | _ => sensor_readings sn k (j + 1)

/-- The valid readings of the whole enumeration: devices answering "temporarily
absent" are skipped, the first "no such device" index ends the enumeration. -/
def valid_readings : List DevAnswer → List Int
  | [] => []
  | .enoent :: _ => []
  | .ok maxnumt sensors :: rest => sensor_readings sensors maxnumt.toNat 0 ++ valid_readings rest
  | _ :: rest => valid_readings rest

/-- No sensor query of the device, before the end of its enumeration, fails with a
hard error. -/
def sensors_complete (sn : Nat → SensorAnswer) : Nat → Nat → Bool
  | 0, _ => true
  | k + 1, j =>
    match sn j with
    | .enoent => true
    | .error => false
    | _ => sensors_complete sn k (j + 1)

/-- No query of the enumeration, before its end, fails with a hard error. -/
def enumeration_complete : List DevAnswer → Bool
  | [] => true
  | .enoent :: _ => true
  | .error :: _ => false
  | .enxio :: rest => enumeration_complete rest
  | .ok maxnumt sensors :: rest =>
    sensors_complete sensors maxnumt.toNat 0 && enumeration_complete rest

/-! ## `d_run` -/

/-- The buffer `s` of `d_run` that `printf("%s\n", s)` prints, given the strings
the five probes return; `none` when `open` fails and `err` ends the process.
`LINE_MAX` is the constant of `<limits.h>`. -/
def d_run (LINE_MAX : Nat) (open_apm open_mixer : Bool) (net cpu bat temp time : CStr) :
    Option CStr :=
  if open_apm = false ∨ open_mixer = false then none
  else some (vsnprintf LINE_MAX
    (net ++ lit " | " ++ cpu ++ lit " | " ++ bat ++ lit " | " ++ temp ++ lit " | " ++ time
      ++ lit " ")).1

/-- The string literals a probe returns instead of a formatted buffer. -/
def diagnostics : List CStr :=
  [lit "vsnprintf failed", lit "socket failed", lit "ioctl failed", lit "getifaddrs failed",
   lit "interface failed", lit "fmt_scaled failed", lit "sysctl failed",
   lit "temperature failed", lit "time failed", lit "localtime failed", lit "strftime failed"]

/-- What a probe can return: the contents of its `static char s[D_BUF]` (fewer
than `D_BUF` bytes before the NUL) or one of the diagnostic literals. -/
def probe_result (s : CStr) : Prop := s.length < D_BUF ∨ s ∈ diagnostics

/-- The constant `FMT_SCALED_STRSIZE` of `<util.h>`: the size of the buffers `is` and `os`. -/
def FMT_SCALED_STRSIZE : Nat := 7

set_option maxRecDepth 100000

/-! # Theorems -/

/-! ## The formatter and the literals -/

theorem diagnostics_length (s : CStr) (h : s ∈ diagnostics) : s.length < D_BUF := by
  simp only [diagnostics, List.mem_cons, List.mem_singleton, List.not_mem_nil, or_false] at h
  rcases h with h | h | h | h | h | h | h | h | h | h | h <;> subst h <;> decide

theorem probe_result_length (s : CStr) (h : probe_result s) : s.length < D_BUF :=
  h.elim id (diagnostics_length s)

theorem vsnprintf_fits (sz : Nat) (text : CStr) (h : text.length < sz) :
    (vsnprintf sz text).1 = text := by
  simp only [vsnprintf]
  exact List.take_of_length_le (by omega)

theorem d_fmt_fits (sz : Nat) (text : CStr) (h : text.length < sz) (h31 : sz ≤ 2 ^ 31) :
    d_fmt sz text = text := by
  have h1 : text.length < 2 ^ 31 := by omega
  have h2 : ¬ ((text.length : Int) < 0 ∨ (sz : Int) ≤ (text.length : Int)) := by omega
  simp only [d_fmt, vsnprintf, h1, if_true, h2, if_false]
  exact List.take_of_length_le (by omega)

theorem d_fmt_result (text : CStr) : probe_result (d_fmt D_BUF text) := by
  unfold d_fmt vsnprintf
  simp only
  split_ifs with h1 h2 h3
  · exact Or.inr (by decide)
  · left
    have : ¬ ((D_BUF : Int) ≤ (text.length : Int)) := fun h => h2 (Or.inr h)
    simp only [D_BUF] at this ⊢
    simp only [List.length_take]
    omega
  · exact Or.inr (by decide)
  · exact absurd (Or.inl (by norm_num)) h3

/-! ## C5, C10: `d_dots` -/

/-- C5: for every quality `q` in `[0,100]` the index `(4 * q) / 100` of `d_dots` is
at most 4 (so the table read succeeds and yields the glyph at that index), it is
monotonically non-decreasing in `q`, and it is 0 at 0, 3 at 99 and 4 at 100. -/
theorem d_dots_bucket (q : Nat) (hq : q ≤ 100) :
    d_dots_index q ∈ [0, 1, 2, 3, 4] ∧
    d_dots q = dots[d_dots_index q]? ∧ (d_dots q).isSome = true ∧
    (∀ q', q ≤ q' → q' ≤ 100 → d_dots_index q ≤ d_dots_index q') ∧
    d_dots_index 0 = 0 ∧ d_dots_index 99 = 3 ∧ d_dots_index 100 = 4 := by
  have hi : d_dots_index q ≤ 4 := by unfold d_dots_index; omega
  refine ⟨?_, rfl, ?_, ?_, by decide, by decide, by decide⟩
  · generalize d_dots_index q = i at hi
    interval_cases i <;> simp
  · generalize hi' : d_dots_index q = i at hi
    simp only [d_dots, hi']
    interval_cases i <;> rfl
  · intro q' h _
    unfold d_dots_index
    exact Nat.div_le_div_right (by omega)

theorem d_dots_bucket_witness :
    d_dots_index 57 ∈ [0, 1, 2, 3, 4] ∧
    d_dots 57 = dots[d_dots_index 57]? ∧ (d_dots 57).isSome = true ∧
    (∀ q', 57 ≤ q' → q' ≤ 100 → d_dots_index 57 ≤ d_dots_index q') ∧
    d_dots_index 0 = 0 ∧ d_dots_index 99 = 3 ∧ d_dots_index 100 = 4 :=
  d_dots_bucket 57 (by decide)

/-- C10: `d_dots` does not clamp. For the `unsigned char` values 125..255 the index
`(4 * q) / 100` is 5 or more and the read is outside the five-entry table; this
is reached from `d_wifi` when the driver ratio `IEEE80211_NODEREQ_RSSI` is 200
(`nr_rssi = 120`, `nr_max_rssi = 60`). -/
theorem d_dots_unclamped :
    d_dots_index 125 = 5 ∧ d_dots 125 = none ∧ d_dots_index 255 = 10 ∧ d_dots 255 = none ∧
    d_wifi (fun _ _ => 200) ⟨true, none, true, 120, 60⟩ = none := by
  decide

/-! ## C6, C9: `d_wifi` -/

/-- C6: when the driver reports no max-signal value (`nr_max_rssi = 0`) the quality
is 100 for `r ≥ -50`, 0 for `r ≤ -100` and `2 * (r + 100)` in between, for every
reading `r` (in particular every `int8_t`); it always lies in `[0,100]`, and is
100 at -50, 0 at -100 and 50 at -75. -/
theorem d_wifi_q_piecewise (RSSI : Int → Nat → Int) (r : Int) :
    (-50 ≤ r → d_wifi_q RSSI r 0 = 100) ∧
    (r ≤ -100 → d_wifi_q RSSI r 0 = 0) ∧
    (-100 < r → r < -50 → d_wifi_q RSSI r 0 = 2 * (r + 100)) ∧
    (0 ≤ d_wifi_q RSSI r 0 ∧ d_wifi_q RSSI r 0 ≤ 100) ∧
    d_wifi_q RSSI (-50) 0 = 100 ∧ d_wifi_q RSSI (-100) 0 = 0 ∧ d_wifi_q RSSI (-75) 0 = 50 := by
  refine ⟨?_, ?_, ?_, ?_, by simp [d_wifi_q], by simp [d_wifi_q], by simp [d_wifi_q]⟩
  · intro h; simp [d_wifi_q, h]
  · intro h
    have h1 : ¬ (-50 ≤ r) := by omega
    simp [d_wifi_q, h, h1]
  · intro h1 h2
    have h3 : ¬ (-50 ≤ r) := by omega
    have h4 : ¬ (r ≤ -100) := by omega
    simp [d_wifi_q, h3, h4]
  · unfold d_wifi_q
    simp only [ne_eq, not_true_eq_false, if_false, ge_iff_le]
    split_ifs <;> omega

/-- C9, as stated, fails: when the access-point query succeeds and the node query
fails with `nr.nr_rssi = 0`, `d_wifi` returns the glyph segment `"[::]"`. -/
theorem d_wifi_node_failure_glyph :
    d_wifi (fun _ _ => 0) ⟨true, none, false, 0, 0⟩ = some (lit "[::]") ∧
    d_wifi (fun _ _ => 0) ⟨true, none, false, 0, 0⟩ ≠ some (lit "ioctl failed") := by
  decide

/-- C9, amended: with the socket open, `d_wifi` returns `"ioctl failed"` when the
access-point query fails with an error other than `ENOTTY`, and when the node
query fails with a non-zero `nr.nr_rssi`; a node query that fails with
`nr.nr_rssi = 0` is treated like one that succeeded. -/
theorem d_wifi_hard_failure (RSSI : Int → Nat → Int) (env : WifiEnv)
    (hs : env.socket_ok = true) :
    (∀ e, env.bssid = some e → e ≠ Errno.enotty → d_wifi RSSI env = some (lit "ioctl failed")) ∧
    (env.bssid = none → env.node_ok = false → env.nr_rssi ≠ 0 →
      d_wifi RSSI env = some (lit "ioctl failed")) ∧
    (env.bssid = none → env.node_ok = false → env.nr_rssi = 0 →
      d_wifi RSSI env = d_wifi RSSI { env with node_ok := true }) := by
  refine ⟨?_, ?_, ?_⟩
  · intro e he hne
    simp [d_wifi, hs, he, hne]
  · intro hb hn hr
    simp [d_wifi, hs, hb, hn, hr]
  · intro hb hn hr
    simp [d_wifi, hs, hb, hn, hr]

theorem d_wifi_hard_failure_witness :
    d_wifi (fun _ _ => 0) ⟨true, some Errno.other, true, -60, 0⟩ = some (lit "ioctl failed") ∧
    d_wifi (fun _ _ => 0) ⟨true, none, false, -60, 0⟩ = some (lit "ioctl failed") :=
  ⟨(d_wifi_hard_failure (fun _ _ => 0) ⟨true, some Errno.other, true, -60, 0⟩ rfl).1
      Errno.other rfl (by decide),
   (d_wifi_hard_failure (fun _ _ => 0) ⟨true, none, false, -60, 0⟩ rfl).2.1
      rfl rfl (by decide)⟩

/-! ## The probes return probe results -/

theorem d_net_result (fmt_scaled : Int → Option CStr) (RSSI : Int → Nat → Int)
    (getifaddrs : Option (List IfAddr)) (wifi : WifiEnv) (ifn : CStr) (st : NetState) (r : CStr)
    (h : (d_net fmt_scaled RSSI getifaddrs wifi ifn st).1 = some r) : probe_result r := by
  unfold d_net at h
  split at h
  · simp only [Option.some.injEq] at h
    subst h
    exact Or.inr (by decide)
  · split at h
    · simp only [Option.some.injEq] at h
      subst h
      exact Or.inr (by decide)
    · split at h
      · cases hw : d_wifi RSSI wifi with
        | none => rw [hw] at h; simp at h
        | some w =>
          rw [hw] at h
          simp only [Option.map_some', Option.some.injEq] at h
          subst h
          split_ifs <;> exact d_fmt_result _
      · simp only [Option.some.injEq] at h
        subst h
        exact Or.inr (by decide)

theorem d_cpu_result (sysctl : Option CpTime) (perf : CStr) (cpu : CpTime) (r : CStr)
    (h : (d_cpu sysctl perf cpu).1 = some r) : probe_result r := by
  unfold d_cpu at h
  split at h
  · simp only [Option.some.injEq] at h
    subst h
    exact Or.inr (by decide)
  · cases hp : d_cpu_p cpu _ with
    | none => rw [hp] at h; simp at h
    | some p =>
      rw [hp] at h
      simp only [Option.map_some', Option.some.injEq] at h
      subst h
      exact d_fmt_result _

theorem d_temp_result (devs : List DevAnswer) : probe_result (d_temp devs) := by
  unfold d_temp
  split
  · exact Or.inr (by decide)
  · split_ifs
    · exact Or.inr (by decide)
    · exact d_fmt_result _

/-! ## C1: `d_run` -/

/-- C1: when both devices open and `LINE_MAX` is at least the POSIX minimum 2048,
for all five probe results (each a buffer of fewer than 64 bytes or a diagnostic
literal) the line of `d_run` is exactly
`net | cpu | battery | temperature | time` followed by one space: five segments
in that order, four `" | "` separators, nothing cut by the `LINE_MAX` buffer. -/
theorem d_run_line (LINE_MAX : Nat) (net cpu bat temp time : CStr)
    (hmax : 2048 ≤ LINE_MAX)
    (hnet : probe_result net) (hcpu : probe_result cpu) (hbat : probe_result bat)
    (htemp : probe_result temp) (htime : probe_result time) :
    d_run LINE_MAX true true net cpu bat temp time =
      some (net ++ lit " | " ++ cpu ++ lit " | " ++ bat ++ lit " | " ++ temp ++ lit " | " ++ time
        ++ lit " ") := by
  have h1 := probe_result_length _ hnet
  have h2 := probe_result_length _ hcpu
  have h3 := probe_result_length _ hbat
  have h4 := probe_result_length _ htemp
  have h5 := probe_result_length _ htime
  have hsep : (lit " | ").length = 3 := by decide
  have hsp : (lit " ").length = 1 := by decide
  simp only [D_BUF] at h1 h2 h3 h4 h5
  simp only [d_run, Bool.true_eq_false, or_self, if_false, Option.some.injEq]
  apply vsnprintf_fits
  simp only [List.length_append, hsep, hsp]
  omega

theorem d_run_line_witness :
    d_run 2048 true true (lit "interface failed") (lit "sysctl failed") (lit "⚡ 97% [A/C]")
        (lit "temperature failed") (lit "2019-01-01 00:30") =
      some (lit "interface failed" ++ lit " | " ++ lit "sysctl failed" ++ lit " | " ++
        lit "⚡ 97% [A/C]" ++ lit " | " ++ lit "temperature failed" ++ lit " | " ++
        lit "2019-01-01 00:30" ++ lit " ") :=
  d_run_line 2048 _ _ _ _ _ (by decide) (Or.inr (by decide)) (Or.inr (by decide))
    (Or.inl (by decide)) (Or.inr (by decide)) (Or.inl (by decide))


/-! ## C2, C7: `d_net` -/

theorem d_net_sum_lt (ifn : CStr) (ifas : List IfAddr) (acc : Nat × Nat × Bool)
    (h1 : acc.1 < 2 ^ 64) (h2 : acc.2.1 < 2 ^ 64) :
    (d_net_sum ifn ifas acc).1 < 2 ^ 64 ∧ (d_net_sum ifn ifas acc).2.1 < 2 ^ 64 := by
  induction ifas generalizing acc with
  | nil => obtain ⟨ib, ob, f⟩ := acc; exact ⟨h1, h2⟩
  | cons ifa rest ih =>
    obtain ⟨ib, ob, f⟩ := acc
    unfold d_net_sum
    split
    · split
      · exact ih _ (Nat.mod_lt _ (by norm_num)) (Nat.mod_lt _ (by norm_num))
      · exact ih _ h1 h2
    · exact ih _ h1 h2

theorem d_net_delta_unset (cur : Nat) : d_net_delta 0 cur = 0 := by
  simp [d_net_delta, to_llong]

theorem d_net_delta_increase (prev x : Nat) (h0 : prev ≠ 0) (hp : prev < 2 ^ 64)
    (hx : x < 2 ^ 63) : d_net_delta prev ((prev + x) % 2 ^ 64) = x := by
  have e : ((prev + x) % 2 ^ 64 + 2 ^ 64 - prev) % 2 ^ 64 = x := by omega
  have e2 : x % 2 ^ 64 = x := by omega
  unfold d_net_delta to_llong
  rw [if_pos h0, e, e2, if_pos hx]

theorem d_net_state (fmt_scaled : Int → Option CStr) (RSSI : Int → Nat → Int)
    (ifas : List IfAddr) (wifi : WifiEnv) (ifn : CStr) (st : NetState) (ib ob : Nat)
    (is os : CStr) (h : d_net_sum ifn ifas (0, 0, false) = (ib, ob, true))
    (hi : fmt_scaled (d_net_delta st.in_ ib) = some is)
    (ho : fmt_scaled (d_net_delta st.out ob) = some os) :
    d_net fmt_scaled RSSI (some ifas) wifi ifn st =
      ((d_wifi RSSI wifi).map (fun w =>
          if w.length ≠ 0 then
            d_fmt D_BUF (lit "↑ " ++ os ++ lit "/s ↓ " ++ is ++ lit "/s " ++ w)
          else
            d_fmt D_BUF (lit "↑ " ++ os ++ lit "/s ↓ " ++ is ++ lit "/s")),
        ⟨ib, ob⟩) := by
  simp only [d_net, h, hi, ho]

/-- C2, as stated, fails. A first sample with totals 0 leaves the counters unset, so
a second sample with totals 0 + 5 reports 0, not 5 (with a `fmt_scaled` that prints
the number followed by `B`, the second sample returns `↑ 0B/s ↓ 0B/s`); and after
a first sample with totals 1, an increase of `2^63` is passed to `fmt_scaled` as
`-2^63`. -/
theorem d_net_rate_zero_total :
    (d_net (fun _ => some (lit "0B")) (fun _ _ => 0)
        (some [⟨lit "em0", some (0, 0)⟩]) ⟨true, some Errno.enotty, true, 0, 0⟩ (lit "em0")
        ⟨0, 0⟩).2 = ⟨0, 0⟩ ∧
    d_net_delta 0 (0 + 5) = 0 ∧ d_net_delta 0 (0 + 5) ≠ 5 ∧
    (d_net (fun _ => some (lit "0B")) (fun _ _ => 0)
        (some [⟨lit "em0", some (1, 1)⟩]) ⟨true, some Errno.enotty, true, 0, 0⟩ (lit "em0")
        ⟨0, 0⟩).2 = ⟨1, 1⟩ ∧
    d_net_delta 1 (1 + 2 ^ 63) = -(2 ^ 63) ∧
    (d_net (fun n => some (fmt_d n ++ lit "B")) (fun _ _ => 0)
        (some [⟨lit "em0", some (0 + 5, 0 + 5)⟩]) ⟨true, some Errno.enotty, true, 0, 0⟩
        (lit "em0")
        (d_net (fun n => some (fmt_d n ++ lit "B")) (fun _ _ => 0)
          (some [⟨lit "em0", some (0, 0)⟩]) ⟨true, some Errno.enotty, true, 0, 0⟩ (lit "em0")
          ⟨0, 0⟩).2).1 = some (lit "↑ 0B/s ↓ 0B/s") ∧
    (d_net (fun n => some (fmt_d n ++ lit "B")) (fun _ _ => 0)
        (some [⟨lit "em0", some (1 + 2 ^ 63, 1 + 2 ^ 63)⟩])
        ⟨true, some Errno.enotty, true, 0, 0⟩ (lit "em0")
        (d_net (fun n => some (fmt_d n ++ lit "B")) (fun _ _ => 0)
          (some [⟨lit "em0", some (1, 1)⟩]) ⟨true, some Errno.enotty, true, 0, 0⟩ (lit "em0")
          ⟨0, 0⟩).2).1 =
      some (lit "↑ -9223372036854775808B/s ↓ -9223372036854775808B/s") := by
  decide

/-- C2, amended: from the unset state `in = out = 0`, a first sample that finds the
interface with totals `ib`, `ob` passes the delta 0 to `fmt_scaled` in both
directions, returns the string built from the two results, and stores `ib`, `ob`.
A second sample whose totals are the first ones plus `X` (inbound) and plus `Y`
(outbound), modulo `2^64`, passes to `fmt_scaled` exactly `X` when `ib ≠ 0` and
`X < 2^63` and 0 when `ib = 0`, exactly `Y` when `ob ≠ 0` and `Y < 2^63` and 0 when
`ob = 0`, returns the string built from the two results (`sy` outbound, `sx`
inbound), and stores the new totals. -/
theorem d_net_rate (fmt_scaled : Int → Option CStr) (RSSI : Int → Nat → Int)
    (ifas ifas2 : List IfAddr) (wifi wifi2 : WifiEnv) (ifn : CStr) (ib ob X Y : Nat)
    (z : CStr)
    (h : d_net_sum ifn ifas (0, 0, false) = (ib, ob, true))
    (hz : fmt_scaled 0 = some z) :
    d_net fmt_scaled RSSI (some ifas) wifi ifn ⟨0, 0⟩ =
      ((d_wifi RSSI wifi).map (fun w =>
          if w.length ≠ 0 then
            d_fmt D_BUF (lit "↑ " ++ z ++ lit "/s ↓ " ++ z ++ lit "/s " ++ w)
          else
            d_fmt D_BUF (lit "↑ " ++ z ++ lit "/s ↓ " ++ z ++ lit "/s")),
        ⟨ib, ob⟩) ∧
    d_net_delta (NetState.mk 0 0).in_ ib = 0 ∧ d_net_delta (NetState.mk 0 0).out ob = 0 ∧
    (d_net fmt_scaled RSSI (some ifas) wifi ifn ⟨0, 0⟩).2 = ⟨ib, ob⟩ ∧
    (ib ≠ 0 → X < 2 ^ 63 →
      d_net_delta (d_net fmt_scaled RSSI (some ifas) wifi ifn ⟨0, 0⟩).2.in_
        ((ib + X) % 2 ^ 64) = X) ∧
    (ob ≠ 0 → Y < 2 ^ 63 →
      d_net_delta (d_net fmt_scaled RSSI (some ifas) wifi ifn ⟨0, 0⟩).2.out
        ((ob + Y) % 2 ^ 64) = Y) ∧
    (ib = 0 →
      d_net_delta (d_net fmt_scaled RSSI (some ifas) wifi ifn ⟨0, 0⟩).2.in_
        ((ib + X) % 2 ^ 64) = 0) ∧
    (ob = 0 →
      d_net_delta (d_net fmt_scaled RSSI (some ifas) wifi ifn ⟨0, 0⟩).2.out
        ((ob + Y) % 2 ^ 64) = 0) ∧
    (∀ sx sy : CStr, (ib ≠ 0 → X < 2 ^ 63) → (ob ≠ 0 → Y < 2 ^ 63) →
      d_net_sum ifn ifas2 (0, 0, false) = ((ib + X) % 2 ^ 64, (ob + Y) % 2 ^ 64, true) →
      fmt_scaled (if ib = 0 then 0 else (X : Int)) = some sx →
      fmt_scaled (if ob = 0 then 0 else (Y : Int)) = some sy →
      d_net fmt_scaled RSSI (some ifas2) wifi2 ifn
          (d_net fmt_scaled RSSI (some ifas) wifi ifn ⟨0, 0⟩).2 =
        ((d_wifi RSSI wifi2).map (fun w =>
            if w.length ≠ 0 then
              d_fmt D_BUF (lit "↑ " ++ sy ++ lit "/s ↓ " ++ sx ++ lit "/s " ++ w)
            else
              d_fmt D_BUF (lit "↑ " ++ sy ++ lit "/s ↓ " ++ sx ++ lit "/s")),
          ⟨(ib + X) % 2 ^ 64, (ob + Y) % 2 ^ 64⟩)) := by
  have hlt := d_net_sum_lt ifn ifas (0, 0, false) (by norm_num) (by norm_num)
  rw [h] at hlt
  have hst := d_net_state fmt_scaled RSSI ifas wifi ifn ⟨0, 0⟩ ib ob z z h
    (by rw [d_net_delta_unset]; exact hz) (by rw [d_net_delta_unset]; exact hz)
  have hin : ∀ sx, (ib ≠ 0 → X < 2 ^ 63) →
      fmt_scaled (if ib = 0 then 0 else (X : Int)) = some sx →
      fmt_scaled (d_net_delta ib ((ib + X) % 2 ^ 64)) = some sx := by
    intro sx hx hsx
    by_cases h0 : ib = 0
    · rw [if_pos h0] at hsx
      subst h0
      rw [d_net_delta_unset]; exact hsx
    · rw [if_neg h0] at hsx
      rw [d_net_delta_increase ib X h0 hlt.1 (hx h0)]; exact hsx
  have hout : ∀ sy, (ob ≠ 0 → Y < 2 ^ 63) →
      fmt_scaled (if ob = 0 then 0 else (Y : Int)) = some sy →
      fmt_scaled (d_net_delta ob ((ob + Y) % 2 ^ 64)) = some sy := by
    intro sy hy hsy
    by_cases h0 : ob = 0
    · rw [if_pos h0] at hsy
      subst h0
      rw [d_net_delta_unset]; exact hsy
    · rw [if_neg h0] at hsy
      rw [d_net_delta_increase ob Y h0 hlt.2 (hy h0)]; exact hsy
  rw [hst]
  refine ⟨rfl, d_net_delta_unset _, d_net_delta_unset _, rfl, ?_, ?_, ?_, ?_, ?_⟩
  · intro h0 hx; exact d_net_delta_increase ib X h0 hlt.1 hx
  · intro h0 hy; exact d_net_delta_increase ob Y h0 hlt.2 hy
  · intro h0; subst h0; exact d_net_delta_unset _
  · intro h0; subst h0; exact d_net_delta_unset _
  · intro sx sy hx hy h2 hsx hsy
    exact d_net_state fmt_scaled RSSI ifas2 wifi2 ifn ⟨ib, ob⟩ _ _ sx sy h2
      (hin sx hx hsx) (hout sy hy hsy)

theorem d_net_rate_witness :
    (d_net (fun n => some (fmt_d n ++ lit "B")) (fun _ _ => 0)
        (some [⟨lit "em0", some (1000, 0)⟩]) ⟨true, some Errno.enotty, true, 0, 0⟩
        (lit "em0") ⟨0, 0⟩).1 = some (lit "↑ 0B/s ↓ 0B/s") ∧
    (d_net (fun n => some (fmt_d n ++ lit "B")) (fun _ _ => 0)
        (some [⟨lit "em0", some (1005, 7)⟩]) ⟨true, some Errno.enotty, true, 0, 0⟩
        (lit "em0")
        (d_net (fun n => some (fmt_d n ++ lit "B")) (fun _ _ => 0)
          (some [⟨lit "em0", some (1000, 0)⟩]) ⟨true, some Errno.enotty, true, 0, 0⟩
          (lit "em0") ⟨0, 0⟩).2).1 = some (lit "↑ 0B/s ↓ 5B/s") :=
  have h := d_net_rate (fun n => some (fmt_d n ++ lit "B")) (fun _ _ => 0)
    [⟨lit "em0", some (1000, 0)⟩] [⟨lit "em0", some (1005, 7)⟩]
    ⟨true, some Errno.enotty, true, 0, 0⟩ ⟨true, some Errno.enotty, true, 0, 0⟩ (lit "em0")
    1000 0 5 7 (lit "0B") (by decide) (by decide)
  ⟨(congrArg Prod.fst h.1).trans (by decide),
   (congrArg Prod.fst (h.2.2.2.2.2.2.2.2 (lit "5B") (lit "0B") (fun _ => by decide)
      (fun _ => by decide) (by decide) (by decide) (by decide))).trans (by decide)⟩

/-- C7: in a sample where `d_net` finds the interface and `fmt_scaled` formats both
rates (into the buffers of `FMT_SCALED_STRSIZE` bytes) and the socket opens:
if the access-point query fails with `ENOTTY`, `d_wifi` returns the empty string
and `d_net` returns exactly `"↑ <out>/s ↓ <in>/s"`, ending in `s`; if the
access-point query succeeds, the node query succeeds and the quality is in
`[0,100]`, `d_net` returns that text followed by a space and `"[g]"` for one of the
five glyphs `g`, which is 2 bytes long. -/
theorem d_net_wifi_segment (fmt_scaled : Int → Option CStr) (RSSI : Int → Nat → Int)
    (ifas : List IfAddr) (wifi : WifiEnv) (ifn : CStr) (st : NetState) (ib ob : Nat)
    (is os : CStr)
    (h : d_net_sum ifn ifas (0, 0, false) = (ib, ob, true))
    (hi : fmt_scaled (d_net_delta st.in_ ib) = some is)
    (ho : fmt_scaled (d_net_delta st.out ob) = some os)
    (hil : is.length < FMT_SCALED_STRSIZE) (hol : os.length < FMT_SCALED_STRSIZE)
    (hs : wifi.socket_ok = true) :
    (wifi.bssid = some Errno.enotty →
      d_wifi RSSI wifi = some [] ∧
      (d_net fmt_scaled RSSI (some ifas) wifi ifn st).1 =
        some (lit "↑ " ++ os ++ lit "/s ↓ " ++ is ++ lit "/s") ∧
      (lit "↑ " ++ os ++ lit "/s ↓ " ++ is ++ lit "/s").getLast? = some 115) ∧
    (wifi.bssid = none → wifi.node_ok = true →
      0 ≤ d_wifi_q RSSI wifi.nr_rssi wifi.nr_max_rssi →
      d_wifi_q RSSI wifi.nr_rssi wifi.nr_max_rssi ≤ 100 →
      ∃ g, g ∈ dots ∧ g.length = 2 ∧
        d_wifi RSSI wifi = some (lit "[" ++ g ++ lit "]") ∧
        (d_net fmt_scaled RSSI (some ifas) wifi ifn st).1 =
          some (lit "↑ " ++ os ++ lit "/s ↓ " ++ is ++ lit "/s" ++ lit " " ++
            (lit "[" ++ g ++ lit "]"))) := by
  have hst := d_net_state fmt_scaled RSSI ifas wifi ifn st ib ob is os h hi ho
  have e1 : (lit "↑ ").length = 4 := by decide
  have e2 : (lit "/s ↓ ").length = 7 := by decide
  have e3 : (lit "/s").length = 2 := by decide
  have e4 : (lit "/s ").length = 3 := by decide
  have e5 : (lit "[").length = 1 := by decide
  have e6 : (lit "]").length = 1 := by decide
  have e7 : lit "/s " = lit "/s" ++ lit " " := by decide
  simp only [FMT_SCALED_STRSIZE] at hil hol
  constructor
  · intro hb
    have hw : d_wifi RSSI wifi = some [] := by
      simp [d_wifi, hs, hb, lit]
    refine ⟨hw, ?_, ?_⟩
    · rw [hst, hw]
      simp only [Option.map_some', List.length_nil, ne_eq, not_true_eq_false, if_false,
        Option.some.injEq]
      apply d_fmt_fits _ _ _ (by norm_num [D_BUF])
      simp only [List.length_append, e1, e2, e3, D_BUF]
      omega
    · have e8 : lit "/s" = [47, 115] := by decide
      rw [e8, List.getLast?_append]
      rfl
  · intro hb hn hq0 hq100
    have hdots : ∀ g, g ∈ dots → g.length = 2 := by decide
    have hidx : d_dots_index (to_uchar (d_wifi_q RSSI wifi.nr_rssi wifi.nr_max_rssi)) < 5 := by
      unfold d_dots_index to_uchar
      omega
    have hlen : d_dots_index (to_uchar (d_wifi_q RSSI wifi.nr_rssi wifi.nr_max_rssi)) <
        dots.length := hidx
    obtain ⟨g, hg⟩ : ∃ g, d_dots (to_uchar (d_wifi_q RSSI wifi.nr_rssi wifi.nr_max_rssi)) =
        some g := ⟨_, List.getElem?_eq_getElem hlen⟩
    have hmem : g ∈ dots := by
      unfold d_dots at hg
      exact List.getElem?_mem hg
    have hgl := hdots g hmem
    have hw : d_wifi RSSI wifi = some (lit "[" ++ g ++ lit "]") := by
      simp only [d_wifi, hs, Bool.true_eq_false, if_false, hb, hn, false_and, hg,
        Option.map_some', Option.some.injEq]
      apply d_fmt_fits _ _ _ (by norm_num [D_BUF])
      simp only [List.length_append, e5, e6, hgl, D_BUF]
      omega
    refine ⟨g, hmem, hgl, hw, ?_⟩
    rw [hst, hw]
    have hne : (lit "[" ++ g ++ lit "]").length ≠ 0 := by
      simp only [List.length_append, e5, e6, hgl]; omega
    simp only [Option.map_some', hne, ne_eq, not_false_eq_true, if_true, Option.some.injEq]
    rw [d_fmt_fits _ _ _ (by norm_num [D_BUF]), e7]
    · simp only [List.append_assoc]
    · simp only [List.length_append, e1, e2, e4, e5, e6, hgl, D_BUF]
      omega

theorem d_net_wifi_segment_witness :
    (d_net (fun _ => some (lit "0B")) (fun _ _ => 0)
        (some [⟨lit "em0", some (1000, 2000)⟩]) ⟨true, some Errno.enotty, true, 0, 0⟩
        (lit "em0") ⟨0, 0⟩).1 = some (lit "↑ " ++ lit "0B" ++ lit "/s ↓ " ++ lit "0B" ++ lit "/s") ∧
    ∃ g, g ∈ dots ∧ g.length = 2 ∧
      d_wifi (fun _ _ => 0) ⟨true, none, true, -75, 0⟩ = some (lit "[" ++ g ++ lit "]") ∧
      (d_net (fun _ => some (lit "0B")) (fun _ _ => 0)
        (some [⟨lit "em0", some (1000, 2000)⟩]) ⟨true, none, true, -75, 0⟩
        (lit "em0") ⟨0, 0⟩).1 =
          some (lit "↑ " ++ lit "0B" ++ lit "/s ↓ " ++ lit "0B" ++ lit "/s" ++ lit " " ++
            (lit "[" ++ g ++ lit "]")) :=
  ⟨((d_net_wifi_segment (fun _ => some (lit "0B")) (fun _ _ => 0)
      [⟨lit "em0", some (1000, 2000)⟩] ⟨true, some Errno.enotty, true, 0, 0⟩ (lit "em0")
      ⟨0, 0⟩ 1000 2000 (lit "0B") (lit "0B") (by decide) rfl rfl (by decide) (by decide)
      rfl).1 rfl).2.1,
   (d_net_wifi_segment (fun _ => some (lit "0B")) (fun _ _ => 0)
      [⟨lit "em0", some (1000, 2000)⟩] ⟨true, none, true, -75, 0⟩ (lit "em0")
      ⟨0, 0⟩ 1000 2000 (lit "0B") (lit "0B") (by decide) rfl rfl (by decide) (by decide)
      rfl).2 rfl rfl (by decide) (by decide)⟩

/-! ## C3, C8: `d_cpu` -/

theorem busy_pct_zero (t : Int) (ht : t ≠ 0) : busy_pct 0 t = some 0 := by
  simp [busy_pct, ht, ofInt, dround, ddiv, dmul, dtrunc]

theorem d_cpu_p_first (c : CpTime) (os : List Int)
    (hu : 0 ≤ c.user) (hs : 0 ≤ c.sys) (hn : 0 ≤ c.nice) (hi : 0 ≤ c.idle)
    (hsum : c.user + c.sys + c.nice + c.idle < 2 ^ 63) :
    d_cpu_p ⟨0, 0, 0, 0, os⟩ c =
      busy_pct (c.user + c.sys + c.nice) (c.user + c.sys + c.nice + c.idle) := by
  have hb : long_sum [c.user, -0, c.sys, -0, c.nice, -0] = some (c.user + c.sys + c.nice) := by
    simp only [long_sum, long_sum_from, neg_zero, add_zero, zero_add]
    rw [if_pos (by omega), if_pos (by omega), if_pos (by omega), if_pos (by omega),
      if_pos (by omega), if_pos (by omega)]
  have ht : long_sum [c.user, -0, c.sys, -0, c.nice, -0, c.idle, -0] =
      some (c.user + c.sys + c.nice + c.idle) := by
    simp only [long_sum, long_sum_from, neg_zero, add_zero, zero_add]
    rw [if_pos (by omega), if_pos (by omega), if_pos (by omega), if_pos (by omega),
      if_pos (by omega), if_pos (by omega), if_pos (by omega), if_pos (by omega)]
  simp only [d_cpu_p, hb, ht]

/-- C3: the failing inputs. With the previous reading all zero and the current one
`user = 29, idle = 71` the exact percentage is 29 and `d_cpu` computes 28 (the
binary64 product `29 / 100.0 * 100` is just below 29 and the conversion to `int`
truncates); likewise 57 and 58 of 100 give 56 and 57. The reading
`user = 50, sys = 30, nice = 0, idle = 20` gives 80. -/
theorem d_cpu_p_truncates :
    d_cpu_p ⟨0, 0, 0, 0, []⟩ ⟨29, 0, 0, 71, []⟩ = some 28 ∧
    (100 * (29 + 0 + 0) : Int) / (29 + 0 + 0 + 71) = 29 ∧
    d_cpu_p ⟨0, 0, 0, 0, []⟩ ⟨57, 0, 0, 43, []⟩ = some 56 ∧
    d_cpu_p ⟨0, 0, 0, 0, []⟩ ⟨50, 0, 8, 42, []⟩ = some 57 ∧
    d_cpu_p ⟨0, 0, 0, 0, []⟩ ⟨50, 0, 30, 20, []⟩ = some 80 ∧
    (d_cpu (some ⟨29, 0, 0, 71, []⟩) (lit "2.4GHz [100%]") ⟨0, 0, 0, 0, []⟩).1 =
      some (lit "CPU 28% 2.4GHz [100%]") := by
  decide

/-- C8, as stated, fails: on the first call (previous reading all zero) the current
reading `user = 50, sys = 30, nice = 0, idle = 20` gives 80, not 0. -/
theorem d_cpu_first_call_nonzero :
    d_cpu_p ⟨0, 0, 0, 0, []⟩ ⟨50, 0, 30, 20, []⟩ = some 80 ∧
    d_cpu_p ⟨0, 0, 0, 0, []⟩ ⟨50, 0, 30, 20, []⟩ ≠ some 0 := by
  decide

/-- C8, amended: on the first call (previous reading all zero) `d_cpu` applies the
formula of every call to the current reading itself: for non-negative ticks whose
sum is a `long`, `p` is `busy / (double)total * 100` for
`busy = user + sys + nice` and `total = busy + idle`; it is 0 whenever `user`,
`sys` and `nice` are 0 and `idle` is positive, and the reading is stored. -/
theorem d_cpu_first_call (c : CpTime) (os : List Int) (perf : CStr)
    (hu : 0 ≤ c.user) (hs : 0 ≤ c.sys) (hn : 0 ≤ c.nice) (hi : 0 ≤ c.idle)
    (hsum : c.user + c.sys + c.nice + c.idle < 2 ^ 63) :
    d_cpu_p ⟨0, 0, 0, 0, os⟩ c =
      busy_pct (c.user + c.sys + c.nice) (c.user + c.sys + c.nice + c.idle) ∧
    (c.user = 0 → c.sys = 0 → c.nice = 0 → 0 < c.idle →
      d_cpu_p ⟨0, 0, 0, 0, os⟩ c = some 0) ∧
    (d_cpu (some c) perf ⟨0, 0, 0, 0, os⟩).2 = c := by
  have h := d_cpu_p_first c os hu hs hn hi hsum
  refine ⟨h, ?_, rfl⟩
  intro h1 h2 h3 h4
  rw [h, h1, h2, h3]
  have e : (0 : Int) + 0 + 0 = 0 := by norm_num
  rw [e]
  exact busy_pct_zero _ (by omega)

theorem d_cpu_first_call_witness :
    d_cpu_p ⟨0, 0, 0, 0, []⟩ ⟨0, 0, 0, 20, []⟩ = some 0 :=
  (d_cpu_first_call ⟨0, 0, 0, 20, []⟩ [] [] (by decide) (by decide) (by decide) (by decide)
    (by decide)).2.1 rfl rfl rfl (by decide)

/-! ## Bounds on the binary64 operations -/

theorem rne_le (n d : Nat) : rne n d ≤ n / d + 1 := by
  unfold rne
  simp only
  split_ifs <;> omega

theorem bits_spec (f n : Nat) (h : n ≤ f) :
    n < 2 ^ bits f n ∧ (n ≠ 0 → 2 ^ (bits f n - 1) ≤ n) := by
  induction f generalizing n with
  | zero =>
    have : n = 0 := by omega
    subst this
    simp [bits]
  | succ f ih =>
    unfold bits
    by_cases h0 : n = 0
    · subst h0; simp
    · rw [if_neg h0]
      have hle : n / 2 ≤ f := by omega
      obtain ⟨h1, h2⟩ := ih (n / 2) hle
      refine ⟨?_, fun _ => ?_⟩
      · rw [pow_succ]; omega
      · simp only [Nat.add_sub_cancel]
        by_cases h3 : n / 2 = 0
        · have hb : bits f (n / 2) = 0 := by
            rw [h3]; cases f <;> simp [bits]
          rw [hb]; simp; omega
        · have h4 := h2 h3
          have hpos : 0 < bits f (n / 2) := by
            rcases Nat.eq_zero_or_pos (bits f (n / 2)) with hz | hz
            · rw [hz] at h1; omega
            · exact hz
          have e : bits f (n / 2) = (bits f (n / 2) - 1) + 1 := by omega
          rw [e, pow_succ]
          omega

theorem bitlen_lt (n : Nat) : n < 2 ^ bitlen n := (bits_spec n n (le_refl n)).1

theorem bitlen_le (n : Nat) (h : n ≠ 0) : 2 ^ (bitlen n - 1) ≤ n :=
  (bits_spec n n (le_refl n)).2 h

theorem bitlen_pos (n : Nat) (h : n ≠ 0) : 0 < bitlen n := by
  rcases Nat.eq_zero_or_pos (bitlen n) with hz | hz
  · have := bitlen_lt n
    rw [hz] at this
    omega
  · exact hz

theorem bitlen_le_of_lt (n k : Nat) (h : n < 2 ^ k) : bitlen n ≤ k := by
  by_cases h0 : n = 0
  · subst h0; simp [bitlen, bits]
  · have h1 := bitlen_le n h0
    have h2 : 2 ^ (bitlen n - 1) < 2 ^ k := lt_of_le_of_lt h1 h
    have h3 := (Nat.pow_lt_pow_iff_right (by norm_num : 1 < 2)).1 h2
    omega

theorem roundPos_scaled (n d : Nat) (hd : d ≠ 0) :
    n * 2 ^ (-((bitlen n : Int) - (bitlen d : Int) - 52)).toNat <
      2 ^ 53 * (d * 2 ^ ((bitlen n : Int) - (bitlen d : Int) - 52).toNat) := by
  have hn := bitlen_lt n
  have hdl := bitlen_le d hd
  have hdp := bitlen_pos d hd
  by_cases he : bitlen d + 52 ≤ bitlen n
  · obtain ⟨k, hk⟩ : ∃ k, bitlen n = (bitlen d - 1) + 53 + k := ⟨bitlen n - bitlen d - 52, by omega⟩
    have e1 : ((bitlen n : Int) - (bitlen d : Int) - 52).toNat = k := by omega
    have e2 : (-((bitlen n : Int) - (bitlen d : Int) - 52)).toNat = 0 := by omega
    rw [e1, e2, pow_zero, Nat.mul_one]
    calc n < 2 ^ bitlen n := hn
      _ = 2 ^ 53 * (2 ^ (bitlen d - 1) * 2 ^ k) := by rw [hk, pow_add, pow_add]; ring
      _ ≤ 2 ^ 53 * (d * 2 ^ k) :=
        Nat.mul_le_mul_left _ (Nat.mul_le_mul_right _ hdl)
  · obtain ⟨k, hk⟩ : ∃ k, (bitlen d - 1) + 53 = bitlen n + k := ⟨bitlen d + 52 - bitlen n, by omega⟩
    have e1 : ((bitlen n : Int) - (bitlen d : Int) - 52).toNat = 0 := by omega
    have e2 : (-((bitlen n : Int) - (bitlen d : Int) - 52)).toNat = k := by omega
    rw [e1, e2, pow_zero, Nat.mul_one]
    calc n * 2 ^ k < 2 ^ bitlen n * 2 ^ k :=
        Nat.mul_lt_mul_of_pos_right hn (Nat.pow_pos (by norm_num))
      _ = 2 ^ 53 * 2 ^ (bitlen d - 1) := by rw [← pow_add, ← hk, pow_add]; ring
      _ ≤ 2 ^ 53 * d := Nat.mul_le_mul_left _ hdl

theorem roundPos_mantissa_le (n d : Nat) (hd : d ≠ 0) : (roundPos n d).1 ≤ 2 ^ 53 := by
  have hs := roundPos_scaled n d hd
  have hpos : 0 < d * 2 ^ ((bitlen n : Int) - (bitlen d : Int) - 52).toNat :=
    Nat.mul_pos (Nat.pos_of_ne_zero hd) (Nat.pow_pos (by norm_num))
  unfold roundPos
  simp only
  split_ifs with hlt
  · have h1 := rne_le (2 * (n * 2 ^ (-((bitlen n : Int) - (bitlen d : Int) - 52)).toNat))
      (d * 2 ^ ((bitlen n : Int) - (bitlen d : Int) - 52).toNat)
    have h2 : 2 * (n * 2 ^ (-((bitlen n : Int) - (bitlen d : Int) - 52)).toNat) /
        (d * 2 ^ ((bitlen n : Int) - (bitlen d : Int) - 52).toNat) < 2 ^ 53 := by
      rw [Nat.div_lt_iff_lt_mul hpos]
      omega
    omega
  · have h1 := rne_le (n * 2 ^ (-((bitlen n : Int) - (bitlen d : Int) - 52)).toNat)
      (d * 2 ^ ((bitlen n : Int) - (bitlen d : Int) - 52).toNat)
    have h2 : n * 2 ^ (-((bitlen n : Int) - (bitlen d : Int) - 52)).toNat /
        (d * 2 ^ ((bitlen n : Int) - (bitlen d : Int) - 52).toNat) < 2 ^ 53 := by
      rw [Nat.div_lt_iff_lt_mul hpos]
      omega
    omega

theorem roundPos_exponent_le (n d : Nat) :
    (roundPos n d).2 ≤ (bitlen n : Int) - (bitlen d : Int) - 52 := by
  unfold roundPos
  simp only
  split_ifs <;> simp

theorem dround_bound (n : Int) (d : Nat) (e : Int) (hd : d ≠ 0) :
    (dround n d e).m.natAbs ≤ 2 ^ 53 ∧
    (dround n d e).e ≤ max 0 ((bitlen n.natAbs : Int) - (bitlen d : Int) - 52 + e) := by
  unfold dround
  by_cases h0 : n = 0
  · simp [h0]
  · rw [if_neg h0]
    refine ⟨?_, ?_⟩
    · simp only [Int.natAbs_mul, Int.natAbs_sign_of_nonzero h0, Int.natAbs_ofNat, Nat.one_mul]
      exact roundPos_mantissa_le _ _ hd
    · have := roundPos_exponent_le n.natAbs d
      simp only
      omega

theorem tenths_le (a : Dbl) (hm : a.m.natAbs ≤ 2 ^ 53) (he : a.e ≤ 0) :
    tenths a ≤ 10 * 2 ^ 53 + 1 := by
  unfold tenths
  split_ifs with h
  · have e0 : a.e = 0 := by omega
    rw [e0]
    simp only [Int.toNat_zero, pow_zero, Nat.mul_one]
    omega
  · have h1 := rne_le (a.m.natAbs * 10) (2 ^ (-a.e).toNat)
    have h2 : a.m.natAbs * 10 / 2 ^ (-a.e).toNat ≤ a.m.natAbs * 10 := Nat.div_le_self _ _
    omega

/-! ## Accuracy of the binary64 operations -/

theorem rne_mul_le (n d : Nat) (hd : d ≠ 0) :
    2 * (rne n d * d) ≤ 2 * n + d ∧ 2 * n ≤ 2 * (rne n d * d) + d := by
  have h := Nat.div_add_mod n d
  have hr : n % d < d := Nat.mod_lt _ (Nat.pos_of_ne_zero hd)
  have hm : d * (n / d) = n / d * d := Nat.mul_comm _ _
  unfold rne
  simp only
  generalize n / d = q at h hm ⊢
  generalize n % d = r at h hr ⊢
  split_ifs <;> constructor <;> nlinarith

theorem rne_err (n d : Nat) (hd : d ≠ 0) : |(rne n d : ℚ) - (n : ℚ) / d| ≤ 1 / 2 := by
  obtain ⟨h1, h2⟩ := rne_mul_le n d hd
  have hd' : (0 : ℚ) < d := by exact_mod_cast Nat.pos_of_ne_zero hd
  have q1 : (2 * ((rne n d : ℚ) * d)) ≤ 2 * n + d := by exact_mod_cast h1
  have q2 : (2 * (n : ℚ)) ≤ 2 * ((rne n d : ℚ) * d) + d := by exact_mod_cast h2
  have e : (rne n d : ℚ) - (n : ℚ) / d = ((rne n d : ℚ) * d - n) / d := by
    field_simp
  rw [e, abs_le]
  constructor
  · rw [le_div_iff₀ hd']; linarith
  · rw [div_le_iff₀ hd']; linarith

theorem rne_scaled_err (N D : Nat) (E : Int) (x : ℚ) (hD : D ≠ 0) (hlow : 2 ^ 52 * D ≤ N)
    (hx : (N : ℚ) / D * (2 : ℚ) ^ E = x) :
    |(rne N D : ℚ) * (2 : ℚ) ^ E - x| ≤ x / 2 ^ 53 := by
  have h := rne_err N D hD
  have hp : (0 : ℚ) < (2 : ℚ) ^ E := zpow_pos (by norm_num) E
  have hD' : (0 : ℚ) < D := by exact_mod_cast Nat.pos_of_ne_zero hD
  have hy : (2 : ℚ) ^ 52 ≤ (N : ℚ) / D := by
    rw [le_div_iff₀ hD']
    exact_mod_cast hlow
  have e : (rne N D : ℚ) * (2 : ℚ) ^ E - x = ((rne N D : ℚ) - (N : ℚ) / D) * (2 : ℚ) ^ E := by
    rw [← hx]; ring
  rw [e, abs_mul, abs_of_pos hp, ← hx]
  have h1 : |(rne N D : ℚ) - (N : ℚ) / D| * (2 : ℚ) ^ E ≤ 1 / 2 * (2 : ℚ) ^ E :=
    mul_le_mul_of_nonneg_right h (le_of_lt hp)
  have h2 : (2 : ℚ) ^ 52 * (2 : ℚ) ^ E ≤ (N : ℚ) / D * (2 : ℚ) ^ E :=
    mul_le_mul_of_nonneg_right hy (le_of_lt hp)
  have h3 : (N : ℚ) / D * (2 : ℚ) ^ E / 2 ^ 53 = (N : ℚ) / D * (2 : ℚ) ^ E * (1 / 2 ^ 53) := by
    ring
  rw [h3]
  nlinarith

theorem scaled_quotient (n d : Nat) (e : Int) (hd : d ≠ 0) :
    ((n * 2 ^ (-e).toNat : Nat) : ℚ) / ((d * 2 ^ e.toNat : Nat) : ℚ) * (2 : ℚ) ^ e =
      (n : ℚ) / d := by
  have hd' : (d : ℚ) ≠ 0 := by exact_mod_cast hd
  rcases le_total 0 e with he | he
  · obtain ⟨k, rfl⟩ := Int.eq_ofNat_of_zero_le he
    have e1 : (-(k : Int)).toNat = 0 := by omega
    rw [e1, Int.toNat_ofNat, zpow_natCast]
    push_cast
    field_simp
    ring
  · obtain ⟨k, hk⟩ : ∃ k : Nat, e = -(k : Int) := ⟨(-e).toNat, by omega⟩
    subst hk
    have e1 : (-(k : Int)).toNat = 0 := by omega
    have e2 : (- -(k : Int)).toNat = k := by omega
    rw [e1, e2, zpow_neg, zpow_natCast]
    push_cast
    field_simp
    ring

theorem roundPos_scaled_ge (n d : Nat) (hn : n ≠ 0) (hd : d ≠ 0) :
    2 ^ 51 * (d * 2 ^ ((bitlen n : Int) - (bitlen d : Int) - 52).toNat) ≤
      n * 2 ^ (-((bitlen n : Int) - (bitlen d : Int) - 52)).toNat := by
  have hnl := bitlen_le n hn
  have hnp := bitlen_pos n hn
  have hdl := bitlen_lt d
  have hdp := bitlen_pos d hd
  by_cases he : bitlen d + 52 ≤ bitlen n
  · obtain ⟨k, hk⟩ : ∃ k, bitlen n - 1 = 51 + bitlen d + k :=
      ⟨bitlen n - bitlen d - 52, by omega⟩
    have e1 : ((bitlen n : Int) - (bitlen d : Int) - 52).toNat = k := by omega
    have e2 : (-((bitlen n : Int) - (bitlen d : Int) - 52)).toNat = 0 := by omega
    rw [e1, e2, pow_zero, Nat.mul_one]
    calc 2 ^ 51 * (d * 2 ^ k) ≤ 2 ^ 51 * (2 ^ bitlen d * 2 ^ k) :=
        Nat.mul_le_mul_left _ (Nat.mul_le_mul_right _ (le_of_lt hdl))
      _ = 2 ^ (bitlen n - 1) := by rw [hk, pow_add, pow_add]; ring
      _ ≤ n := hnl
  · obtain ⟨k, hk⟩ : ∃ k, 51 + bitlen d = bitlen n - 1 + k :=
      ⟨bitlen d + 52 - bitlen n, by omega⟩
    have e1 : ((bitlen n : Int) - (bitlen d : Int) - 52).toNat = 0 := by omega
    have e2 : (-((bitlen n : Int) - (bitlen d : Int) - 52)).toNat = k := by omega
    rw [e1, e2, pow_zero, Nat.mul_one]
    calc 2 ^ 51 * d ≤ 2 ^ 51 * 2 ^ bitlen d := Nat.mul_le_mul_left _ (le_of_lt hdl)
      _ = 2 ^ (bitlen n - 1) * 2 ^ k := by rw [← pow_add, ← pow_add, hk]
      _ ≤ n * 2 ^ k := Nat.mul_le_mul_right _ hnl

theorem roundPos_err (n d : Nat) (hn : n ≠ 0) (hd : d ≠ 0) :
    |((roundPos n d).1 : ℚ) * (2 : ℚ) ^ (roundPos n d).2 - (n : ℚ) / d| ≤
      (n : ℚ) / d / 2 ^ 53 := by
  have hq := scaled_quotient n d ((bitlen n : Int) - (bitlen d : Int) - 52) hd
  have hge := roundPos_scaled_ge n d hn hd
  have hpos : d * 2 ^ ((bitlen n : Int) - (bitlen d : Int) - 52).toNat ≠ 0 :=
    Nat.mul_ne_zero hd (by positivity)
  unfold roundPos
  simp only
  split_ifs with hlt
  · apply rne_scaled_err _ _ _ _ hpos (by omega)
    rw [← hq, zpow_sub_one₀ (by norm_num)]
    push_cast
    ring
  · exact rne_scaled_err _ _ _ _ hpos (by omega) hq

theorem dround_err (n : Int) (d : Nat) (e : Int) (hd : d ≠ 0) :
    |(dround n d e).val - (n : ℚ) / d * (2 : ℚ) ^ e| ≤ |(n : ℚ) / d * (2 : ℚ) ^ e| / 2 ^ 53 := by
  have hp : (0 : ℚ) < (2 : ℚ) ^ e := zpow_pos (by norm_num) e
  have hd' : (0 : ℚ) < d := by exact_mod_cast Nat.pos_of_ne_zero hd
  unfold dround
  by_cases h0 : n = 0
  · simp [h0, Dbl.val]
  · rw [if_neg h0]
    obtain ⟨k, rfl | rfl⟩ := Int.eq_nat_or_neg n
    · have hk : k ≠ 0 := by intro h; apply h0; simp [h]
      have hkp : (0 : ℚ) < k := by exact_mod_cast Nat.pos_of_ne_zero hk
      have hs : (k : Int).sign = 1 := Int.sign_eq_one_of_pos (by omega)
      have h := roundPos_err k d hk hd
      simp only [Dbl.val, hs, Int.natAbs_ofNat, Int.one_mul, Int.cast_natCast]
      have e1 : ((roundPos k d).1 : ℚ) * (2 : ℚ) ^ ((roundPos k d).2 + e) - (k : ℚ) / d * 2 ^ e =
          (((roundPos k d).1 : ℚ) * (2 : ℚ) ^ (roundPos k d).2 - (k : ℚ) / d) * 2 ^ e := by
        rw [zpow_add₀ (by norm_num)]; ring
      rw [e1, abs_mul, abs_of_pos hp, abs_of_pos (mul_pos (div_pos hkp hd') hp)]
      have := mul_le_mul_of_nonneg_right h (le_of_lt hp)
      calc _ ≤ (k : ℚ) / d / 2 ^ 53 * 2 ^ e := this
        _ = (k : ℚ) / d * 2 ^ e / 2 ^ 53 := by ring
    · have hk : k ≠ 0 := by intro h; apply h0; simp [h]
      have hkp : (0 : ℚ) < k := by exact_mod_cast Nat.pos_of_ne_zero hk
      have hs : (-(k : Int)).sign = -1 := Int.sign_eq_neg_one_of_neg (by omega)
      have h := roundPos_err k d hk hd
      simp only [Dbl.val, hs, Int.natAbs_neg, Int.natAbs_ofNat, Int.cast_mul, Int.cast_neg,
        Int.cast_one, Int.cast_natCast]
      have e1 : -1 * ((roundPos k d).1 : ℚ) * (2 : ℚ) ^ ((roundPos k d).2 + e) -
          -(k : ℚ) / d * 2 ^ e =
          -((((roundPos k d).1 : ℚ) * (2 : ℚ) ^ (roundPos k d).2 - (k : ℚ) / d) * 2 ^ e) := by
        rw [zpow_add₀ (by norm_num)]; ring
      have e2 : -(k : ℚ) / d * 2 ^ e = -((k : ℚ) / d * 2 ^ e) := by ring
      rw [e1, abs_neg, abs_mul, abs_of_pos hp, e2, abs_neg,
        abs_of_pos (mul_pos (div_pos hkp hd') hp)]
      have := mul_le_mul_of_nonneg_right h (le_of_lt hp)
      calc _ ≤ (k : ℚ) / d / 2 ^ 53 * 2 ^ e := this
        _ = (k : ℚ) / d * 2 ^ e / 2 ^ 53 := by ring

theorem rne_one (n : Nat) : rne n 1 = n := by
  simp [rne, Nat.mod_one]

theorem sign_mul_natAbs_cast (x : Int) : ((x.sign : Int) : ℚ) * (x.natAbs : ℚ) = (x : ℚ) := by
  have h2 : ((x.sign * (x.natAbs : Int) : Int) : ℚ) = (x : ℚ) := by rw [Int.sign_mul_natAbs]
  rw [Int.cast_mul, Int.cast_natCast] at h2
  exact h2

theorem roundPos_exact (n : Nat) (hn : n ≠ 0) (h53 : n < 2 ^ 53) :
    ((roundPos n 1).1 : ℚ) * (2 : ℚ) ^ (roundPos n 1).2 = n := by
  have hb : bitlen n ≤ 53 := bitlen_le_of_lt _ _ h53
  have hp := bitlen_pos n hn
  have hl := bitlen_le n hn
  have h1 : bitlen 1 = 1 := by decide
  have hq := scaled_quotient n 1 ((bitlen n : Int) - (bitlen 1 : Int) - 52) (by norm_num)
  obtain ⟨k, hk⟩ : ∃ k, 52 = bitlen n - 1 + k := ⟨53 - bitlen n, by omega⟩
  have e1 : ((bitlen n : Int) - (bitlen 1 : Int) - 52).toNat = 0 := by rw [h1]; omega
  have e2 : (-((bitlen n : Int) - (bitlen 1 : Int) - 52)).toNat = k := by rw [h1]; omega
  have hge : ¬ (n * 2 ^ k < 2 ^ 52 * (1 * 2 ^ 0)) := by
    have : 2 ^ 52 = 2 ^ (bitlen n - 1) * 2 ^ k := by rw [← pow_add, ← hk]
    have h2 : 2 ^ (bitlen n - 1) * 2 ^ k ≤ n * 2 ^ k := Nat.mul_le_mul_right _ hl
    omega
  unfold roundPos
  simp only
  rw [e1, e2] at hq ⊢
  rw [if_neg hge]
  simp only [pow_zero, Nat.mul_one, rne_one]
  simp only [pow_zero, Nat.mul_one, Nat.cast_one, div_one] at hq
  exact hq

theorem ofInt_val (x : Int) (h53 : x.natAbs < 2 ^ 53) : (ofInt x).val = x := by
  unfold ofInt dround
  by_cases h0 : x = 0
  · simp [h0, Dbl.val]
  · rw [if_neg h0]
    have hn : x.natAbs ≠ 0 := by omega
    have h := roundPos_exact x.natAbs hn h53
    simp only [Dbl.val, add_zero, Int.cast_mul, Int.cast_natCast]
    rw [mul_assoc, h]
    exact sign_mul_natAbs_cast x

theorem ddiv_err (a b : Dbl) (hb : b.m ≠ 0) :
    |(ddiv a b).val - a.val / b.val| ≤ |a.val / b.val| / 2 ^ 53 := by
  have hd : b.m.natAbs ≠ 0 := by omega
  have h := dround_err (a.m * b.m.sign) b.m.natAbs (a.e - b.e) hd
  have hbq : (b.m : ℚ) ≠ 0 := by exact_mod_cast hb
  have e : ((a.m * b.m.sign : Int) : ℚ) / (b.m.natAbs : ℚ) * (2 : ℚ) ^ (a.e - b.e) =
      a.val / b.val := by
    have h1 : ((b.m.sign : Int) : ℚ) * (b.m.natAbs : ℚ) = (b.m : ℚ) := sign_mul_natAbs_cast b.m
    have h2 : ((b.m.sign : Int) : ℚ) * ((b.m.sign : Int) : ℚ) = 1 := by
      rcases lt_trichotomy b.m 0 with hlt | heq | hgt
      · rw [Int.sign_eq_neg_one_of_neg hlt]; norm_num
      · exact absurd heq hb
      · rw [Int.sign_eq_one_of_pos hgt]; norm_num
    have hn : (b.m.natAbs : ℚ) ≠ 0 := by exact_mod_cast hd
    have hp : ((2 : ℚ) ^ b.e) ≠ 0 := zpow_ne_zero _ (by norm_num)
    simp only [Dbl.val, Int.cast_mul]
    rw [zpow_sub₀ (by norm_num : (2 : ℚ) ≠ 0), ← h1]
    have hs : ((b.m.sign : Int) : ℚ) ≠ 0 := by
      intro hz; rw [hz] at h2; norm_num at h2
    field_simp
    calc (a.m : ℚ) * (b.m.sign : ℚ) * 2 ^ a.e * ((b.m.sign : ℚ) * (b.m.natAbs : ℚ) * 2 ^ b.e)
        = ((b.m.sign : ℚ) * (b.m.sign : ℚ)) * ((a.m : ℚ) * 2 ^ a.e * ((b.m.natAbs : ℚ) * 2 ^ b.e)) := by
          ring
      _ = (a.m : ℚ) * 2 ^ a.e * ((b.m.natAbs : ℚ) * 2 ^ b.e) := by rw [h2, one_mul]
  unfold ddiv
  rw [e] at h
  exact h

theorem dmul_err (a b : Dbl) : |(dmul a b).val - a.val * b.val| ≤ |a.val * b.val| / 2 ^ 53 := by
  have h := dround_err (a.m * b.m) 1 (a.e + b.e) (by norm_num)
  have e : ((a.m * b.m : Int) : ℚ) / ((1 : Nat) : ℚ) * (2 : ℚ) ^ (a.e + b.e) = a.val * b.val := by
    simp only [Dbl.val, Int.cast_mul, Nat.cast_one, div_one]
    rw [zpow_add₀ (by norm_num : (2 : ℚ) ≠ 0)]
    ring
  unfold dmul
  rw [e] at h
  exact h

theorem natAbs_cast_abs (x : Int) : (x.natAbs : ℚ) = |(x : ℚ)| := by
  rw [← Int.cast_abs, Int.abs_eq_natAbs, Int.cast_natCast]

theorem val_abs (a : Dbl) : |a.val| = (a.m.natAbs : ℚ) * (2 : ℚ) ^ a.e := by
  have hp : (0 : ℚ) < (2 : ℚ) ^ a.e := zpow_pos (by norm_num) a.e
  rw [Dbl.val, abs_mul, abs_of_pos hp, natAbs_cast_abs]

theorem tenths_err (a : Dbl) : |(tenths a : ℚ) - 10 * (|a.val|)| ≤ 1 / 2 := by
  rw [val_abs]
  unfold tenths
  split_ifs with he
  · obtain ⟨k, hk⟩ := Int.eq_ofNat_of_zero_le he
    rw [hk, Int.toNat_ofNat, zpow_natCast]
    push_cast
    have : (a.m.natAbs : ℚ) * 2 ^ k * 10 - 10 * ((a.m.natAbs : ℚ) * 2 ^ k) = 0 := by ring
    rw [this]
    norm_num
  · obtain ⟨k, hk⟩ : ∃ k : Nat, a.e = -(k : Int) := ⟨(-a.e).toNat, by omega⟩
    have e2 : (-a.e).toNat = k := by omega
    have h := rne_err (a.m.natAbs * 10) (2 ^ k) (by positivity)
    rw [e2, hk, zpow_neg, zpow_natCast]
    have e3 : 10 * ((a.m.natAbs : ℚ) * (2 ^ k)⁻¹) =
        ((a.m.natAbs * 10 : Nat) : ℚ) / ((2 ^ k : Nat) : ℚ) := by
      push_cast
      field_simp
      ring
    rw [e3]
    exact h

theorem val_neg_iff (a : Dbl) : a.val < 0 ↔ a.m < 0 := by
  have hp : (0 : ℚ) < (2 : ℚ) ^ a.e := zpow_pos (by norm_num) a.e
  unfold Dbl.val
  constructor
  · intro h
    by_contra hn
    have : (0 : ℚ) ≤ (a.m : ℚ) := by exact_mod_cast not_lt.1 hn
    have := mul_nonneg this (le_of_lt hp)
    linarith
  · intro h
    have : (a.m : ℚ) < 0 := by exact_mod_cast h
    exact mul_neg_of_neg_of_pos this hp

/-- The text `%.1f` prints for `(double)x / 1000000.0` denotes a number within
0.05 of `x / 1000000`, for every integer `x` of magnitude below `2^53`. -/
theorem celsius_accuracy (x : Int) (h53 : x.natAbs < 2 ^ 53) :
    |fmt_f1_value (ddiv (ofInt x) (ofInt 1000000)) - (x : ℚ) / 1000000| ≤ 1 / 20 := by
  have hc : (ofInt 1000000).m ≠ 0 := by decide
  have hv := ofInt_val x h53
  have hv6 : (ofInt 1000000).val = ((1000000 : Int) : ℚ) := ofInt_val 1000000 (by decide)
  have hdiv := ddiv_err (ofInt x) (ofInt 1000000) hc
  rw [hv, hv6] at hdiv
  have ht := tenths_err (ddiv (ofInt x) (ofInt 1000000))
  have hsg := val_neg_iff (ddiv (ofInt x) (ofInt 1000000))
  generalize ddiv (ofInt x) (ofInt 1000000) = a at hdiv ht hsg ⊢
  have hxa : |(x : ℚ)| < 2 ^ 53 := by
    rw [← natAbs_cast_abs]
    exact_mod_cast h53
  have hq : |(x : ℚ) / ((1000000 : Int) : ℚ)| = |(x : ℚ)| / 1000000 := by
    rw [abs_div]; norm_num
  rw [hq] at hdiv
  have hcast : (x : ℚ) / ((1000000 : Int) : ℚ) = (x : ℚ) / 1000000 := by norm_num
  rw [hcast] at hdiv
  -- the absolute values are within `1e-6` of each other
  have habs : |(|a.val| - |(x : ℚ)| / 1000000)| < 1 / 1000000 := by
    have h1 : |(|a.val| - |(x : ℚ) / 1000000|)| ≤ |a.val - (x : ℚ) / 1000000| :=
      abs_abs_sub_abs_le_abs_sub _ _
    rw [abs_div] at h1
    norm_num at h1
    have h2 : |(x : ℚ)| / 1000000 / 2 ^ 53 < 1 / 1000000 := by
      rw [div_div, div_lt_div_iff₀ (by norm_num) (by norm_num)]
      nlinarith
    linarith
  -- an integer argument: `tenths * 100000` and `|x|` differ by at most 50000
  have hint : |((tenths a : ℚ) * 100000 - (|(x : ℚ)|))| ≤ 50000 := by
    have h3 : |((tenths a : ℚ) * 100000 - (|(x : ℚ)|))| < 50001 := by
      have e : (tenths a : ℚ) * 100000 - (|(x : ℚ)|) =
          100000 * ((tenths a : ℚ) - 10 * (|a.val|)) +
            1000000 * ((|a.val|) - (|(x : ℚ)|) / 1000000) := by ring
      rw [e]
      have t1 := abs_add (100000 * ((tenths a : ℚ) - 10 * (|a.val|)))
        (1000000 * ((|a.val|) - (|(x : ℚ)|) / 1000000))
      rw [abs_mul, abs_mul] at t1
      norm_num at t1
      nlinarith
    have h4 : |((tenths a : Int) * 100000 - (x.natAbs : Int))| < 50001 := by
      have : ((|((tenths a : Int) * 100000 - (x.natAbs : Int))| : Int) : ℚ) < 50001 := by
        push_cast
        exact h3
      exact_mod_cast this
    have h5 : |((tenths a : Int) * 100000 - (x.natAbs : Int))| ≤ 50000 := by omega
    have : ((|((tenths a : Int) * 100000 - (x.natAbs : Int))| : Int) : ℚ) ≤ 50000 := by
      exact_mod_cast h5
    push_cast at this
    exact this
  have hmag : |(tenths a : ℚ) / 10 - |(x : ℚ)| / 1000000| ≤ 1 / 20 := by
    have e : (tenths a : ℚ) / 10 - |(x : ℚ)| / 1000000 =
        ((tenths a : ℚ) * 100000 - |(x : ℚ)|) / 1000000 := by ring
    rw [e, abs_div]
    norm_num
    rw [div_le_iff₀ (by norm_num)]
    linarith
  unfold fmt_f1_value
  by_cases hx0 : x = 0
  · subst hx0
    simp only [Int.cast_zero, abs_zero, zero_div, sub_zero] at hmag ⊢
    split_ifs
    · rw [neg_one_mul, abs_neg]; exact hmag
    · rw [one_mul]; exact hmag
  · -- `a` has the sign of `x`
    have hxq : (x : ℚ) ≠ 0 := by exact_mod_cast hx0
    have hxpos : 0 < |(x : ℚ)| := abs_pos.2 hxq
    have hrel : |a.val - (x : ℚ) / 1000000| < |(x : ℚ)| / 1000000 := by
      have : |(x : ℚ)| / 1000000 / 2 ^ 53 < |(x : ℚ)| / 1000000 := by
        apply div_lt_self (by positivity) (by norm_num)
      linarith
    rcases lt_or_gt_of_ne hx0 with hneg | hpos
    · have hxn : (x : ℚ) < 0 := by exact_mod_cast hneg
      have habsx : |(x : ℚ)| = -(x : ℚ) := abs_of_neg hxn
      rw [habsx] at hrel hmag
      have hval : a.val < 0 := by
        have := (abs_lt.1 hrel).2
        linarith
      rw [if_pos (hsg.1 hval)]
      have e : -1 * ((tenths a : ℚ) / 10) - (x : ℚ) / 1000000 =
          -((tenths a : ℚ) / 10 - -(x : ℚ) / 1000000) := by ring
      rw [e, abs_neg]
      exact hmag
    · have hxp : (0 : ℚ) < (x : ℚ) := by exact_mod_cast hpos
      have habsx : |(x : ℚ)| = (x : ℚ) := abs_of_pos hxp
      rw [habsx] at hrel hmag
      have hval : ¬ a.val < 0 := by
        have := (abs_lt.1 hrel).1
        intro h
        linarith
      rw [if_neg (fun h => hval (hsg.2 h)), one_mul]
      exact hmag

theorem dtrunc_floor (a : Dbl) (hm : 0 ≤ a.m) : dtrunc a = ⌊a.val⌋ := by
  unfold dtrunc Dbl.val
  split_ifs with he
  · obtain ⟨k, hk⟩ := Int.eq_ofNat_of_zero_le he
    rw [hk, Int.toNat_ofNat, zpow_natCast]
    have : (a.m : ℚ) * 2 ^ k = ((a.m * 2 ^ k : Int) : ℚ) := by push_cast; ring
    rw [this, Int.floor_intCast]
  · obtain ⟨k, hk⟩ : ∃ k : Nat, a.e = -(k : Int) := ⟨(-a.e).toNat, by omega⟩
    have e2 : (-a.e).toNat = k := by omega
    rw [e2, hk, zpow_neg, zpow_natCast]
    have : (a.m : ℚ) * (2 ^ k)⁻¹ = (a.m : ℚ) / ((2 ^ k : Nat) : ℚ) := by
      push_cast; rw [div_eq_mul_inv]
    rw [this, Rat.floor_intCast_div_natCast, Int.tdiv_eq_ediv hm (by positivity)]
    push_cast
    rfl

theorem val_ne_zero (a : Dbl) (h : a.val ≠ 0) : a.m ≠ 0 := by
  intro h0
  apply h
  simp [Dbl.val, h0]

/-- How far `d_cpu` is from the exact percentage: for `0 ≤ b ≤ t`, `0 < t < 2^45`, the
value `b / (double)t * 100` converted to `int` is the integer part of `100 * b / t`
or one less, and it is the integer part whenever `100 * b / t` is not an integer. -/
theorem busy_pct_near (b t : Int) (hb : 0 ≤ b) (hbt : b ≤ t) (ht0 : 0 < t) (ht : t < 2 ^ 45) :
    ∃ p, busy_pct b t = some p ∧ (p = 100 * b / t ∨ p + 1 = 100 * b / t) ∧
      (100 * b % t ≠ 0 → p = 100 * b / t) := by
  have hvb := ofInt_val b (by omega)
  have hvt := ofInt_val t (by omega)
  have hvc := ofInt_val 100 (by decide)
  have htq : (0 : ℚ) < (t : ℚ) := by exact_mod_cast ht0
  have hbq : (0 : ℚ) ≤ (b : ℚ) := by exact_mod_cast hb
  have hbtq : (b : ℚ) ≤ (t : ℚ) := by exact_mod_cast hbt
  have htm : (ofInt t).m ≠ 0 := val_ne_zero _ (by rw [hvt]; exact ne_of_gt htq)
  have h1 := ddiv_err (ofInt b) (ofInt t) htm
  have h2 := dmul_err (ddiv (ofInt b) (ofInt t)) (ofInt 100)
  have hfl := dtrunc_floor (dmul (ddiv (ofInt b) (ofInt t)) (ofInt 100))
  have hsg := val_neg_iff (dmul (ddiv (ofInt b) (ofInt t)) (ofInt 100))
  rw [hvb, hvt] at h1
  rw [hvc] at h2
  have hdef : busy_pct b t = if -(2 ^ 31) ≤ dtrunc (dmul (ddiv (ofInt b) (ofInt t)) (ofInt 100)) ∧
      dtrunc (dmul (ddiv (ofInt b) (ofInt t)) (ofInt 100)) < 2 ^ 31 then
      some (dtrunc (dmul (ddiv (ofInt b) (ofInt t)) (ofInt 100))) else none := by
    unfold busy_pct
    rw [if_neg (by omega)]
  rw [hdef]
  generalize (ddiv (ofInt b) (ofInt t)).val = q at h1 h2
  generalize dmul (ddiv (ofInt b) (ofInt t)) (ofInt 100) = r at h2 hfl hsg ⊢
  -- the quotient and the product
  have hr0 : (0 : ℚ) ≤ (b : ℚ) / t := div_nonneg hbq (le_of_lt htq)
  have hr1 : (b : ℚ) / t ≤ 1 := (div_le_one htq).2 hbtq
  rw [abs_of_nonneg hr0] at h1
  have hq := abs_le.1 h1
  have hq0 : 0 ≤ q := by
    have : (b : ℚ) / t / 2 ^ 53 ≤ (b : ℚ) / t := div_le_self hr0 (by norm_num)
    linarith [hq.1]
  have hq1 : q ≤ 1 + 1 / 2 ^ 53 := by
    have : (b : ℚ) / t / 2 ^ 53 ≤ 1 / 2 ^ 53 :=
      div_le_div_of_nonneg_right hr1 (by norm_num)
    linarith [hq.2]
  have hcq : ((100 : Int) : ℚ) = 100 := by norm_num
  rw [hcq, abs_of_nonneg (mul_nonneg hq0 (by norm_num))] at h2
  have hc := abs_le.1 h2
  have hrv0 : 0 ≤ r.val := by
    have : q * 100 / 2 ^ 53 ≤ q * 100 := div_le_self (mul_nonneg hq0 (by norm_num)) (by norm_num)
    linarith [hc.1]
  have hrm : 0 ≤ r.m := by
    by_contra hneg
    have := hsg.2 (not_le.1 hneg)
    linarith
  have hp := hfl hrm
  -- the distance to the exact percentage is below `1 / t`
  have hinv : (1 : ℚ) / 2 ^ 45 < 1 / t := by
    apply one_div_lt_one_div_of_lt htq
    exact_mod_cast ht
  have hbq1 : (b : ℚ) / t / 2 ^ 53 ≤ 1 / 2 ^ 53 := div_le_div_of_nonneg_right hr1 (by norm_num)
  have hq100 : q * 100 / 2 ^ 53 ≤ (1 + 1 / 2 ^ 53) * 100 / 2 ^ 53 :=
    div_le_div_of_nonneg_right (mul_le_mul_of_nonneg_right hq1 (by norm_num)) (by norm_num)
  have hsmall : (100 : ℚ) * (1 / 2 ^ 53) + (1 + 1 / 2 ^ 53) * 100 / 2 ^ 53 < 1 / 2 ^ 45 := by
    norm_num
  have hlo : (100 * b : ℚ) / t - 1 / t < r.val := by
    have e : (100 * b : ℚ) / t = 100 * ((b : ℚ) / t) := by ring
    rw [e]
    linarith [hc.1, hq.1]
  have hhi : r.val < (100 * b : ℚ) / t + 1 / t := by
    have e : (100 * b : ℚ) / t = 100 * ((b : ℚ) / t) := by ring
    rw [e]
    linarith [hc.2, hq.2]
  -- the exact percentage as quotient and remainder
  have hdm := Int.emod_add_ediv (100 * b) t
  have hm0 := Int.emod_nonneg (100 * b) (ne_of_gt ht0)
  have hm1 := Int.emod_lt_of_pos (100 * b) ht0
  generalize 100 * b / t = F at hdm ⊢
  generalize hρ : 100 * b % t = ρ at hdm hm0 hm1 ⊢
  have hF0 : 0 ≤ F := by
    by_contra hneg
    have : F ≤ -1 := by omega
    nlinarith
  have hF100 : F ≤ 100 := by
    by_contra hgt
    have : 101 ≤ F := by omega
    nlinarith
  have hv : (100 * b : ℚ) / t = F + (ρ : ℚ) / t := by
    have : ((100 * b : Int) : ℚ) = ((ρ + t * F : Int) : ℚ) := by rw [hdm]
    push_cast at this
    rw [this]
    field_simp
    ring
  rw [hv] at hlo hhi
  have hρ0 : (0 : ℚ) ≤ (ρ : ℚ) := by exact_mod_cast hm0
  have hone : (1 : ℚ) / t ≤ 1 := by
    rw [div_le_one htq]
    exact_mod_cast ht0
  by_cases hz : ρ = 0
  · subst hz
    simp only [Int.cast_zero, zero_div, add_zero] at hlo hhi
    by_cases hge : (F : ℚ) ≤ r.val
    · have hfloor : ⌊r.val⌋ = F := Int.floor_eq_iff.2 ⟨hge, by linarith⟩
      rw [hp, hfloor, if_pos (by omega)]
      exact ⟨F, rfl, Or.inl rfl, fun _ => rfl⟩
    · have hfloor : ⌊r.val⌋ = F - 1 := by
        apply Int.floor_eq_iff.2
        push_cast
        constructor
        · linarith
        · linarith [not_le.1 hge]
      rw [hp, hfloor, if_pos (by omega)]
      exact ⟨F - 1, rfl, Or.inr (by omega), fun h => absurd rfl h⟩
  · have hρ1 : (1 : ℚ) ≤ (ρ : ℚ) := by
      have : 1 ≤ ρ := by omega
      exact_mod_cast this
    have hρt : (ρ : ℚ) ≤ (t : ℚ) - 1 := by
      have : ρ ≤ t - 1 := by omega
      exact_mod_cast this
    have e1 : (1 : ℚ) / t ≤ (ρ : ℚ) / t := div_le_div_of_nonneg_right hρ1 (le_of_lt htq)
    have e2 : (ρ : ℚ) / t ≤ 1 - 1 / t := by
      have : (ρ : ℚ) / t ≤ ((t : ℚ) - 1) / t := div_le_div_of_nonneg_right hρt (le_of_lt htq)
      have e3 : ((t : ℚ) - 1) / t = 1 - 1 / t := by field_simp
      linarith
    have hfloor : ⌊r.val⌋ = F := Int.floor_eq_iff.2 ⟨by linarith, by linarith⟩
    rw [hp, hfloor, if_pos (by omega)]
    exact ⟨F, rfl, Or.inl rfl, fun _ => rfl⟩

/-! ## Lengths of the `printf` conversions -/

theorem dec_digits_length (f n k : Nat) (hk : 1 ≤ k) (h : n < 10 ^ k) :
    (dec_digits f n).length ≤ k := by
  induction f generalizing n k with
  | zero => simp [dec_digits]
  | succ f ih =>
    unfold dec_digits
    split_ifs with h10
    · simpa using hk
    · obtain ⟨j, rfl⟩ : ∃ j, k = j + 1 := ⟨k - 1, by omega⟩
      have hj : 1 ≤ j := by
        rcases Nat.eq_zero_or_pos j with hz | hz
        · subst hz; simp at h; omega
        · exact hz
      have hlt : n / 10 < 10 ^ j := by
        rw [Nat.div_lt_iff_lt_mul (by norm_num)]
        rw [pow_succ] at h
        exact h
      have := ih (n / 10) j hj hlt
      simp only [List.length_append, List.length_singleton]
      omega

theorem utoa_length (n k : Nat) (hk : 1 ≤ k) (h : n < 10 ^ k) : (utoa n).length ≤ k :=
  dec_digits_length _ n k hk h

theorem fmt_f1_length (a : Dbl) (hm : a.m.natAbs ≤ 2 ^ 53) (he : a.e ≤ 0) :
    (fmt_f1 a).length ≤ 19 := by
  have ht := tenths_le a hm he
  have h1 : tenths a / 10 < 10 ^ 16 := by
    rw [Nat.div_lt_iff_lt_mul (by norm_num)]
    have : (10 * 2 ^ 53 + 1 : Nat) < 10 ^ 16 * 10 := by norm_num
    omega
  have h2 := utoa_length (tenths a / 10) 16 (by norm_num) h1
  unfold fmt_f1
  simp only [List.length_append, List.length_cons, List.length_nil]
  split_ifs <;> simp <;> omega

theorem ofInt_bound (x : Int) (hx : x.natAbs < 2 ^ 63) :
    (ofInt x).m.natAbs ≤ 2 ^ 53 ∧ (ofInt x).e ≤ 10 := by
  have h := dround_bound x 1 0 (by norm_num)
  have hb : bitlen x.natAbs ≤ 63 := bitlen_le_of_lt _ _ hx
  have h1 : bitlen 1 = 1 := by decide
  unfold ofInt
  refine ⟨h.1, ?_⟩
  have := h.2
  rw [h1] at this
  omega

theorem celsius_bound (x : Int) (hx : x.natAbs < 2 ^ 63) :
    (ddiv (ofInt x) (ofInt 1000000)).m.natAbs ≤ 2 ^ 53 ∧
    (ddiv (ofInt x) (ofInt 1000000)).e ≤ 0 := by
  have hc : ofInt 1000000 = ⟨8589934592000000, -33⟩ := by decide
  have hb : bitlen 8589934592000000 = 53 := by decide
  obtain ⟨hm, he⟩ := ofInt_bound x hx
  have hl : bitlen (ofInt x).m.natAbs ≤ 54 := bitlen_le_of_lt _ _ (by omega)
  have e : ddiv (ofInt x) ⟨8589934592000000, -33⟩ =
      dround (ofInt x).m 8589934592000000 ((ofInt x).e + 33) := by
    unfold ddiv
    have e1 : (8589934592000000 : Int).sign = 1 := by decide
    have e2 : (8589934592000000 : Int).natAbs = 8589934592000000 := by decide
    simp only [e1, e2, Int.mul_one, sub_neg_eq_add]
  rw [hc, e]
  have h := dround_bound (ofInt x).m 8589934592000000 ((ofInt x).e + 33) (by norm_num)
  rw [hb] at h
  refine ⟨h.1, ?_⟩
  have := h.2
  omega

theorem d_temp_text_length (t : Int) (h0 : 0 ≤ t) (h63 : t < 2 ^ 63) :
    (d_temp_text t).length < D_BUF := by
  have hx : (t - 273150000).natAbs < 2 ^ 63 := by omega
  obtain ⟨hm, he⟩ := celsius_bound (t - 273150000) hx
  have hf := fmt_f1_length _ hm he
  have e1 : (lit "T ").length = 2 := by decide
  have e2 : (lit "°C").length = 3 := by decide
  unfold d_temp_text d_temp_celsius
  simp only [List.length_append, e1, e2, D_BUF]
  omega

/-! ## C4: `d_temp` -/

theorem foldl_max_ge (l : List Int) (t : Int) :
    t ≤ l.foldl max t ∧ ∀ v ∈ l, v ≤ l.foldl max t := by
  induction l generalizing t with
  | nil => simp
  | cons a l ih =>
    obtain ⟨h1, h2⟩ := ih (max t a)
    simp only [List.foldl_cons, List.mem_cons]
    refine ⟨le_trans (le_max_left t a) h1, ?_⟩
    rintro v (rfl | hv)
    · exact le_trans (le_max_right t v) h1
    · exact h2 v hv

theorem foldl_max_mem (l : List Int) (t : Int) : l.foldl max t = t ∨ l.foldl max t ∈ l := by
  induction l generalizing t with
  | nil => simp
  | cons a l ih =>
    simp only [List.foldl_cons, List.mem_cons]
    rcases ih (max t a) with h | h
    · rw [h]
      rcases max_choice t a with h' | h'
      · left; exact h'
      · right; left; exact h'
    · right; right; exact h

theorem d_temp_sensors_eq (sn : Nat → SensorAnswer) (k j : Nat) (t : Int)
    (hc : sensors_complete sn k j = true) :
    d_temp_sensors sn k j t = some ((sensor_readings sn k j).foldl max t) := by
  induction k generalizing j t with
  | zero => simp [d_temp_sensors, sensor_readings]
  | succ k ih =>
    unfold sensors_complete at hc
    unfold d_temp_sensors sensor_readings
    cases hsn : sn j with
    | enxio =>
      rw [hsn] at hc
      exact ih (j + 1) t hc
    | enoent => simp
    | error => rw [hsn] at hc; simp at hc
    | ok sn_sz finvalid value =>
      rw [hsn] at hc
      simp only
      rw [ih (j + 1) _ hc, List.foldl_append]
      by_cases hv : sn_sz ≠ 0 ∧ finvalid = false
      · rw [if_pos hv, if_pos hv]
        simp only [List.foldl_cons, List.foldl_nil]
        by_cases hgt : value > t
        · rw [if_pos hgt, max_eq_right (le_of_lt hgt)]
        · rw [if_neg hgt, max_eq_left (not_lt.1 hgt)]
      · rw [if_neg hv, if_neg hv]
        simp

theorem d_temp_devs_eq (devs : List DevAnswer) (t : Int)
    (hc : enumeration_complete devs = true) :
    d_temp_devs devs t = some ((valid_readings devs).foldl max t) := by
  induction devs generalizing t with
  | nil => simp [d_temp_devs, valid_readings]
  | cons d rest ih =>
    cases d with
    | enxio =>
      simp only [enumeration_complete] at hc
      simp only [d_temp_devs, valid_readings]
      exact ih t hc
    | enoent => simp [d_temp_devs, valid_readings]
    | error => simp [enumeration_complete] at hc
    | ok maxnumt sensors =>
      simp only [enumeration_complete, Bool.and_eq_true] at hc
      simp only [d_temp_devs, valid_readings]
      rw [d_temp_sensors_eq _ _ _ _ hc.1, List.foldl_append]
      exact ih _ hc.2

theorem d_temp_text_ne (t : Int) : d_temp_text t ≠ lit "temperature failed" := by
  intro h
  have e1 : lit "T " = [84, 32] := by decide
  have e2 : (lit "temperature failed").head? = some 116 := by decide
  have e3 : (d_temp_text t).head? = some 84 := by
    unfold d_temp_text
    rw [e1]
    rfl
  rw [h, e2] at e3
  simp at e3

/-- C4, as stated, fails: an enumeration without a hard error whose only valid
reading is the raw value -5 makes `d_temp` return `"temperature failed"`, although
a valid reading exists. -/
theorem d_temp_negative_reading :
    enumeration_complete [.ok 1 (fun _ => .ok 1 false (-5))] = true ∧
    valid_readings [.ok 1 (fun _ => .ok 1 false (-5))] = [-5] ∧
    d_temp [.ok 1 (fun _ => .ok 1 false (-5))] = lit "temperature failed" := by
  decide

/-- C4, amended: for every enumeration that completes without a hard query error
and whose valid readings (answered with a record of non-zero size and not flagged
invalid) are `int64_t` values: if the maximum valid reading `m` is not negative,
`d_temp` returns `"T %.1f°C"` for the `double` `(m - 273150000) / 1000000.0` (raw
373150000 gives `T 100.0°C`, raw 273150000 gives `T 0.0°C`), and for `m` below
`2^53` the number printed is within 0.05 of `(m - 273150000) / 1000000`; and it
returns `"temperature failed"` exactly when no valid reading is non-negative. -/
theorem d_temp_max_valid (devs : List DevAnswer)
    (hc : enumeration_complete devs = true)
    (h64 : ∀ v ∈ valid_readings devs, v < 2 ^ 63) :
    (∀ m, m ∈ valid_readings devs → (∀ v ∈ valid_readings devs, v ≤ m) → 0 ≤ m →
      d_temp devs = lit "T " ++ fmt_f1 (d_temp_celsius m) ++ lit "°C" ∧
      (m < 2 ^ 53 →
        |fmt_f1_value (d_temp_celsius m) - ((m : ℚ) - 273150000) / 1000000| ≤ 1 / 20)) ∧
    (d_temp devs = lit "temperature failed" ↔ ∀ v ∈ valid_readings devs, v < 0) ∧
    d_temp [.ok 1 (fun _ => .ok 1 false 373150000)] = lit "T 100.0°C" ∧
    d_temp [.ok 1 (fun _ => .ok 1 false 273150000)] = lit "T 0.0°C" := by
  have hd := d_temp_devs_eq devs (-1) hc
  obtain ⟨hge, hall⟩ := foldl_max_ge (valid_readings devs) (-1)
  have hmem := foldl_max_mem (valid_readings devs) (-1)
  have hfit : ∀ r, r ∈ valid_readings devs → 0 ≤ r → d_fmt D_BUF (d_temp_text r) =
      d_temp_text r := fun r hr h0 =>
    d_fmt_fits _ _ (d_temp_text_length r h0 (h64 r hr)) (by norm_num [D_BUF])
  refine ⟨?_, ?_, by decide, by decide⟩
  · intro m hm hmax h0
    have h1 := hall m hm
    have hr : (valid_readings devs).foldl max (-1) = m := by
      rcases hmem with h | h
      · omega
      · exact le_antisymm (hmax _ h) h1
    have hne : ¬ (m = -1) := by omega
    refine ⟨?_, ?_⟩
    · simp only [d_temp, hd, hr, if_neg hne]
      exact hfit m hm h0
    · intro h53
      have := celsius_accuracy (m - 273150000) (by omega)
      unfold d_temp_celsius
      push_cast at this
      exact this
  · constructor
    · intro h v hv
      have h1 := hall v hv
      by_cases hr : (valid_readings devs).foldl max (-1) = -1
      · omega
      · exfalso
        have hin : (valid_readings devs).foldl max (-1) ∈ valid_readings devs :=
          hmem.resolve_left hr
        simp only [d_temp, hd, if_neg hr] at h
        rw [hfit _ hin (by omega)] at h
        exact d_temp_text_ne _ h
    · intro h
      have hr : (valid_readings devs).foldl max (-1) = -1 := by
        rcases hmem with h' | h'
        · exact h'
        · have := h _ h'
          omega
      simp only [d_temp, hd, hr, if_true]

theorem d_temp_max_valid_witness :
    d_temp [.enxio, .ok 3 (fun j => if j = 1 then .ok 1 false 300400000 else
      if j = 0 then .ok 1 true 999999999 else .enxio), .enoent, .error] =
      lit "T " ++ fmt_f1 (d_temp_celsius 300400000) ++ lit "°C" :=
  ((d_temp_max_valid [.enxio, .ok 3 (fun j => if j = 1 then .ok 1 false 300400000 else
      if j = 0 then .ok 1 true 999999999 else .enxio), .enoent, .error]
    (by decide) (by decide)).1 300400000 (by decide) (by decide) (by decide)).1

end Tstat
